import Mathlib

/-!
Verification of the segment-overlap engine of `track_analyzer`
(`src/gpx_track_analyzer/compare.py`, `src/gpx_track_analyzer/utils.py`,
`src/track_analyzer/utils.py`).

Floating point arithmetic of the Python source is modelled by exact real
arithmetic (`ℝ`); integer counts stay in `ℕ`/`ℤ`; the `float` ratio of two
integer sums is modelled by `ℚ` division.  Exceptions raised by the Python
code are modelled by `Except`.
-/

namespace TrackAnalyzer

/-- Model of `gpx_track_analyzer.model.Position2D`: latitude/longitude in degrees. -/
structure Position2D where
  latitude : ℝ
  longitude : ℝ

/-- Model of `gpxpy.gpx.GPXTrackPoint` as consumed by the overlap engine: latitude and
longitude in degrees, optional elevation (m) and time (modelled as a real
timestamp). -/
structure GPXTrackPoint where
  latitude : ℝ
  longitude : ℝ
  elevation : Option ℝ
  time : Option ℝ

instance : Inhabited GPXTrackPoint := ⟨⟨0, 0, none, none⟩⟩

/-- Model of `gpxpy.gpx.GPXBounds`: the four scalars of a bounding box. -/
structure GPXBounds where
  min_latitude : ℝ
  min_longitude : ℝ
  max_latitude : ℝ
  max_longitude : ℝ

/-- Model of `utils.distance`: haversine distance in meters between two 2D positions,
using the fixed 12742 km Earth-diameter constant. -/
noncomputable def distance (pos1 pos2 : Position2D) : ℝ :=
  let p : ℝ := Real.pi / 180
  let a : ℝ :=
    0.5 - Real.cos ((pos2.latitude - pos1.latitude) * p) / 2
      + Real.cos (pos1.latitude * p) * Real.cos (pos2.latitude * p)
        * (1 - Real.cos ((pos2.longitude - pos1.longitude) * p)) / 2
  let distance_km := 12742 * Real.arcsin (Real.sqrt a)
  distance_km * 1000

/-- Model of `utils.get_latitude_at_distance`: latitude reached from `position` after
moving `dist` meters due north (`to_east = true`) or south. -/
noncomputable def get_latitude_at_distance (position : Position2D) (dist : ℝ)
    (to_east : Bool) : ℝ :=
  let a := Real.sin (dist / 12742000) ^ 2
  let b := Real.arccos (1 - 2 * a) / (Real.pi / 180)
  if to_east then b + position.latitude else position.latitude - b

/-- Model of `utils.get_longitude_at_distance`: longitude reached from `position` after
moving `dist` meters due east (`to_north = true`) or west. -/
noncomputable def get_longitude_at_distance (position : Position2D) (dist : ℝ)
    (to_north : Bool) : ℝ :=
  let p := Real.pi / 180
  let a := Real.sin (dist / 12742000) ^ 2
  let b := Real.cos (position.latitude * p) ^ 2 / 2
  let c := Real.arccos (1 - a / b) / p
  if to_north then c + position.longitude else position.longitude - c

open Classical in
/-- Python's `int(round(x))`: round half to even (banker's rounding). -/
noncomputable def pyround (x : ℝ) : ℤ :=
  if x - ⌊x⌋ < 1 / 2 then ⌊x⌋
  else if 1 / 2 < x - ⌊x⌋ then ⌊x⌋ + 1
  else if Even ⌊x⌋ then ⌊x⌋ else ⌊x⌋ + 1

/-- The bin-edge building loop of `compare.derive_plate_bins`: starting from a
single anchor, append `n` times the image of the current last element under
`step` (`bins.append(step(bins[-1]))`). -/
def binChain (step : ℝ × ℝ → ℝ × ℝ) (x0 : ℝ × ℝ) : ℕ → List (ℝ × ℝ)
  | 0 => [x0]
  | n + 1 =>
    let bins := binChain step x0 n
    bins ++ [step (bins.getLastD x0)]

/-- Model of `compare.derive_plate_bins`: derive the latitude/longitude bin-edge anchor
lists from the bounding box and the grid width. -/
noncomputable def derive_plate_bins (gird_width bounds_min_latitude
    bounds_min_longitude bounds_max_latitude bounds_max_longitude : ℝ) :
    List (ℝ × ℝ) × List (ℝ × ℝ) :=
  let distance_latitude_total := gird_width +
    distance ⟨bounds_min_latitude, bounds_min_longitude⟩
      ⟨bounds_max_latitude, bounds_min_longitude⟩
  let distance_longitude_total := gird_width +
    distance ⟨bounds_min_latitude, bounds_min_longitude⟩
      ⟨bounds_min_latitude, bounds_max_longitude⟩
  let n_bins_latitude := pyround (distance_latitude_total / gird_width)
  let n_bins_longitude := pyround (distance_longitude_total / gird_width)
  let lower_edge_latitude := get_latitude_at_distance
    ⟨bounds_min_latitude, bounds_min_longitude⟩ (gird_width / 2) false
  let lower_edge_longitude := get_longitude_at_distance
    ⟨bounds_min_latitude, bounds_min_longitude⟩ (gird_width / 2) false
  let bins_latitude := binChain
    (fun prev => (get_latitude_at_distance ⟨prev.1, prev.2⟩ gird_width true,
      lower_edge_longitude))
    (lower_edge_latitude, lower_edge_longitude) n_bins_latitude.toNat
  let bins_longitude := binChain
    (fun prev => (lower_edge_latitude,
      get_longitude_at_distance ⟨prev.1, prev.2⟩ gird_width true))
    (lower_edge_latitude, lower_edge_longitude) n_bins_longitude.toNat
  (bins_latitude, bins_longitude)

open Classical in
/-- Model of `np.digitize(x, bins)` for monotonically increasing `bins`: the number of
bin edges that are `≤ x`. -/
noncomputable def digitize (x : ℝ) (bins : List ℝ) : ℕ :=
  (bins.filter fun b => decide (b ≤ x)).length

/-- A numpy 2D integer matrix ("plate"), as a total value function together
with its shape.  Cells outside the shape are never touched and read 0. -/
structure Plate where
  rows : ℕ
  cols : ℕ
  val : ℕ → ℕ → ℕ

/-- numpy integer indexing: a negative index `i` (here only `-1` is reachable,
from `np.digitize - 1`) wraps around to `n + i`. -/
def npIndex (i : ℤ) (n : ℕ) : ℕ := (i % (n : ℤ)).toNat

/-- Model of `plate[lat, long] += 1` with numpy index semantics. -/
def plateInc (P : Plate) (i j : ℤ) : Plate :=
  { P with val := fun r c =>
      if r = npIndex i P.rows ∧ c = npIndex j P.cols then P.val r c + 1
      else P.val r c }

/-- Model of `collections.deque(maxlen)` push: append on the right, evict from the left
once the length exceeds `maxlen` (a `maxlen` of 0 keeps the deque empty). -/
def dequePush (q : List (ℤ × ℤ)) (maxlen : ℕ) (x : ℤ × ℤ) : List (ℤ × ℤ) :=
  let q' := q ++ [x]
  if q'.length ≤ maxlen then q' else q'.drop (q'.length - maxlen)

/-- The plate-filling loop of `compare.convert_segment_to_plate`: walk the
digitized bin-index pairs, and in `normalize` mode skip a point whose bin is
still in the sliding window of the last `max_queue_normalize` accepted bins. -/
def fillPlate : List (ℤ × ℤ) → Bool → ℕ → Plate → List (ℤ × ℤ) → Plate
  | [], _, _, plate, _ => plate
  | b :: rest, normalize, max_queue_normalize, plate, prev_bins =>
    if normalize then
      if b ∈ prev_bins then
        fillPlate rest normalize max_queue_normalize plate prev_bins
      else
        fillPlate rest normalize max_queue_normalize (plateInc plate b.1 b.2)
          (dequePush prev_bins max_queue_normalize b)
    else
      fillPlate rest normalize max_queue_normalize (plateInc plate b.1 b.2)
        prev_bins

/-- Model of `np.flip(plate, axis=0)`: vertical flip, row 0 becomes the max-latitude
bin. -/
def plateFlip (P : Plate) : Plate :=
  { P with val := fun i j => P.val (P.rows - 1 - i) j }

/-- Model of `compare.convert_segment_to_plate`: rasterize a segment onto the grid
derived from the bounds and the grid width. -/
noncomputable def convert_segment_to_plate (segment : List GPXTrackPoint)
    (gird_width bounds_min_latitude bounds_min_longitude bounds_max_latitude
      bounds_max_longitude : ℝ) (normalize : Bool) (max_queue_normalize : ℕ) :
    Plate :=
  let bins := derive_plate_bins gird_width bounds_min_latitude
    bounds_min_longitude bounds_max_latitude bounds_max_longitude
  let bins_latitude := bins.1
  let bins_longitude := bins.2
  let lat_bins := bins_latitude.map Prod.fst
  let long_bins := bins_longitude.map Prod.snd
  let segment_bins := segment.map fun point =>
    ((digitize point.latitude lat_bins : ℤ) - 1,
     (digitize point.longitude long_bins : ℤ) - 1)
  let plate := fillPlate segment_bins normalize max_queue_normalize
    ⟨bins_latitude.length, bins_longitude.length, fun _ _ => 0⟩ []
  plateFlip plate

/-- Bound predicate of `utils.crop_segment_to_bounds`: latitude and longitude
within the box, inclusive on both ends of both axes. -/
def inBounds (bounds_min_latitude bounds_min_longitude bounds_max_latitude
    bounds_max_longitude : ℝ) (point : GPXTrackPoint) : Prop :=
  (bounds_min_latitude ≤ point.latitude ∧
      point.latitude ≤ bounds_max_latitude) ∧
    (bounds_min_longitude ≤ point.longitude ∧
      point.longitude ≤ bounds_max_longitude)

open Classical in
/-- Model of `utils.crop_segment_to_bounds`: build a new segment holding exactly the
points of `segment` inside the box (the input list is not modified). -/
noncomputable def crop_segment_to_bounds (segment : List GPXTrackPoint)
    (bounds_min_latitude bounds_min_longitude bounds_max_latitude
      bounds_max_longitude : ℝ) : List GPXTrackPoint :=
  segment.filter fun point => decide (inBounds bounds_min_latitude
    bounds_min_longitude bounds_max_latitude bounds_max_longitude point)

/-- Model of `gpxpy` `get_bounds` on a nonempty point list: fold min/max over all
points starting from the first. -/
noncomputable def boundsOfNonempty (p : GPXTrackPoint)
    (rest : List GPXTrackPoint) : GPXBounds :=
  rest.foldl (fun b q =>
      ⟨min b.min_latitude q.latitude, min b.min_longitude q.longitude,
        max b.max_latitude q.latitude, max b.max_longitude q.longitude⟩)
    ⟨p.latitude, p.longitude, p.latitude, p.longitude⟩

/-- Model of `gpxpy` `GPXTrackSegment.get_bounds`: `none` on an empty segment. -/
noncomputable def get_bounds : List GPXTrackPoint → Option GPXBounds
  | [] => none
  | p :: rest => some (boundsOfNonempty p rest)

/-- One entry of `utils.get_distances`: the vectorized pairwise haversine
(identical formula to `distance`, written on coordinate pairs). -/
noncomputable def get_distances_entry (v1 v2 : ℝ × ℝ) : ℝ :=
  let p : ℝ := Real.pi / 180
  let dp : ℝ :=
    0.5 - Real.cos ((v2.1 - v1.1) * p) / 2
      + Real.cos (v1.1 * p) * Real.cos (v2.1 * p)
        * (1 - Real.cos ((v2.2 - v1.2) * p)) / 2
  let dp_km := 12742 * Real.arcsin (Real.sqrt dp)
  dp_km * 1000

/-- Model of `np.min` of a list of reals (junk 0 on the empty list, unreached). -/
noncomputable def listMin : List ℝ → ℝ
  | [] => 0
  | x :: xs => xs.foldl min x

open Classical in
/-- Model of `np.argmin`: index of the first occurrence of the minimum (junk 0 on the
empty list, unreached). -/
noncomputable def idxOfMin : List ℝ → ℕ
  | [] => 0
  | x :: xs => if xs = [] ∨ x ≤ listMin xs then 0 else idxOfMin xs + 1

/-- Model of `utils.get_point_distance_in_segment`: brute-force nearest point of
`segment` to the query coordinate, its distance and its index.  The Python
code raises on an empty segment (empty `argmin`), modelled by `none`. -/
noncomputable def get_point_distance_in_segment (segment : List GPXTrackPoint)
    (latitude longitude : ℝ) : Option (GPXTrackPoint × ℝ × ℕ) :=
  match segment with
  | [] => none
  | _ :: _ =>
    let distances := segment.map fun point =>
      get_distances_entry (point.latitude, point.longitude)
        (latitude, longitude)
    let min_idx := idxOfMin distances
    let min_distance := listMin distances
    some (segment.getD min_idx default, min_distance, min_idx)

/-- Elementwise plate addition (`plate_base + plate_match`; shapes agree for
all reachable calls). -/
def plateAdd (a b : Plate) : Plate :=
  ⟨a.rows, a.cols, fun i j => a.val i j + b.val i j⟩

/-- Model of `np.digitize(v, np.array([0, 2, 3])) - 1` on a single cell value. -/
def bucket3 (v : ℕ) : ℕ :=
  (([0, 2, 3] : List ℕ).filter fun e => decide (e ≤ v)).length - 1

/-- The three-bucket digitization of the combined plate. -/
def plateBucket (P : Plate) : Plate :=
  ⟨P.rows, P.cols, fun i j => bucket3 (P.val i j)⟩

/-- Model of `np.sum` over a plate. -/
def plateSum (P : Plate) : ℕ :=
  ∑ i ∈ Finset.range P.rows, ∑ j ∈ Finset.range P.cols, P.val i j

/-- Model of `plate.max()` over a plate. -/
def plateMax (P : Plate) : ℕ :=
  Finset.sup (Finset.range P.rows) fun i =>
    Finset.sup (Finset.range P.cols) fun j => P.val i j

/-- The overlap-scoring block of `compare.get_segment_overlap` (lines
257–268): elementwise addition, three-bucket digitization of the combined
plate at `[0, 2, 3]`, and the ratio of overlapping bins to match bins; the
`int / float` Python division is modelled by `ℚ` division. -/
def overlap_ratio (plate_base plate_match : Plate) : ℚ :=
  let overlap_plate := plateAdd plate_base plate_match
  let overlap_plate' := plateBucket overlap_plate
  let overlapping_bins := plateSum overlap_plate'
  let match_bins := plateSum plate_match
  (overlapping_bins : ℚ) / (match_bins : ℚ)

/-- Model of `gpx_track_analyzer.model.SegmentOverlap`. -/
structure SegmentOverlap where
  overlap : ℚ
  inverse : Bool
  plate : Plate
  start_point : GPXTrackPoint
  start_idx : ℕ
  end_point : GPXTrackPoint
  end_idx : ℕ

/-- The exceptions `compare.get_segment_overlap` can raise: the explicit
`NotImplementedError` for multiple occurrences, the `AttributeError` from
taking bounds of an empty match segment, and the `ValueError` from `argmin`
over an empty base segment. -/
inductive CompareError where
  | attributeErrorNoBounds
  | notImplementedMultipleMatches
  | valueErrorEmptyArgmin
deriving DecidableEq

/-- Model of `points[-1]` of a nonempty list. -/
def lastPoint (p : GPXTrackPoint) (rest : List GPXTrackPoint) :
    GPXTrackPoint :=
  (p :: rest).getLast (List.cons_ne_nil p rest)

/-- Model of `compare.get_segment_overlap`: crop the base to the match bounds,
rasterize both (normalized), reject multiple occurrences, score the combined
plate, and locate/orient the match inside the uncropped base segment. -/
noncomputable def get_segment_overlap (base_segment match_segment :
    List GPXTrackPoint) (grid_width : ℝ) (max_queue_normalize : ℕ) :
    Except CompareError SegmentOverlap :=
  match match_segment with
  | [] => .error .attributeErrorNoBounds
  | first_point_match :: rest =>
    let bounds_match := boundsOfNonempty first_point_match rest
    let cropped_base_segment := crop_segment_to_bounds base_segment
      bounds_match.min_latitude bounds_match.min_longitude
      bounds_match.max_latitude bounds_match.max_longitude
    let plate_base := convert_segment_to_plate cropped_base_segment grid_width
      bounds_match.min_latitude bounds_match.min_longitude
      bounds_match.max_latitude bounds_match.max_longitude true
      max_queue_normalize
    if 1 < plateMax plate_base then .error .notImplementedMultipleMatches
    else
      let plate_match := convert_segment_to_plate match_segment grid_width
        bounds_match.min_latitude bounds_match.min_longitude
        bounds_match.max_latitude bounds_match.max_longitude true
        max_queue_normalize
      let overlap_plate := plateAdd plate_base plate_match
      let overlap : ℚ := overlap_ratio plate_base plate_match
      let last_point_match := lastPoint first_point_match rest
      match get_point_distance_in_segment base_segment
          first_point_match.latitude first_point_match.longitude,
        get_point_distance_in_segment base_segment
          last_point_match.latitude last_point_match.longitude with
      | some (first_point_base, _, first_idx),
        some (last_point_base, _, last_idx) =>
        if first_idx < last_idx then
          .ok ⟨overlap, false, overlap_plate, first_point_base, first_idx,
            last_point_base, last_idx⟩
        else
          .ok ⟨overlap, true, overlap_plate, last_point_base, last_idx,
            first_point_base, first_idx⟩
      | _, _ => .error .valueErrorEmptyArgmin

/-- Modelled from the spec: the acceptance-threshold gate of the overlap
entry point.  The later `track_analyzer.compare.get_segment_overlap` (the
module imported by `Track.find_overlap_with_segment`) is not under `src/`;
per the spec it takes a caller-supplied `overlap_threshold` (default 0.75)
and rejects — "return nothing", an empty result list and no exception —
whenever the computed overlap ratio is strictly below the threshold. -/
noncomputable def get_segment_overlap_threshold (base_segment match_segment :
    List GPXTrackPoint) (grid_width : ℝ) (max_queue_normalize : ℕ)
    (overlap_threshold : ℚ) : Except CompareError (List SegmentOverlap) :=
  match get_segment_overlap base_segment match_segment grid_width
      max_queue_normalize with
  | .error e => .error e
  | .ok r => .ok (if r.overlap < overlap_threshold then [] else [r])

open Classical in
/-- State-passing form of the loop of `utils.crop_segment_to_bounds`: the
contents of the input segment object are threaded explicitly next to the
freshly created cropped list; each iteration only reads the input object and
appends to the new one. -/
noncomputable def crop_segment_to_bounds_loop (bounds_min_latitude
    bounds_min_longitude bounds_max_latitude bounds_max_longitude : ℝ) :
    List GPXTrackPoint → List GPXTrackPoint → List GPXTrackPoint →
      List GPXTrackPoint × List GPXTrackPoint
  | [], segment_points, cropped => (segment_points, cropped)
  | point :: rest, segment_points, cropped =>
    if inBounds bounds_min_latitude bounds_min_longitude bounds_max_latitude
        bounds_max_longitude point then
      crop_segment_to_bounds_loop bounds_min_latitude bounds_min_longitude
        bounds_max_latitude bounds_max_longitude rest segment_points
        (cropped ++ [point])
    else
      crop_segment_to_bounds_loop bounds_min_latitude bounds_min_longitude
        bounds_max_latitude bounds_max_longitude rest segment_points cropped

/-- State-passing form of `get_segment_overlap`: the point lists of the two
input segment objects are threaded through the call (the crop loop is the
only statement of the source that appends to any segment object, and it
appends to a freshly created one), and returned next to the result. -/
noncomputable def get_segment_overlap_mut (base_segment match_segment :
    List GPXTrackPoint) (grid_width : ℝ) (max_queue_normalize : ℕ) :
    Except CompareError SegmentOverlap ×
      List GPXTrackPoint × List GPXTrackPoint :=
  match match_segment with
  | [] => (.error .attributeErrorNoBounds, base_segment, match_segment)
  | first_point_match :: rest =>
    let bounds_match := boundsOfNonempty first_point_match rest
    let crop_state := crop_segment_to_bounds_loop
      bounds_match.min_latitude bounds_match.min_longitude
      bounds_match.max_latitude bounds_match.max_longitude
      base_segment base_segment []
    let base_after_crop := crop_state.1
    (get_segment_overlap base_after_crop (first_point_match :: rest)
        grid_width max_queue_normalize,
      base_after_crop, first_point_match :: rest)

/-- Count of cells occupied in both plates (combined value exactly 2). -/
def countCommon (A B : Plate) : ℕ :=
  ∑ i ∈ Finset.range A.rows, ∑ j ∈ Finset.range A.cols,
    if A.val i j + B.val i j = 2 then 1 else 0

/-- Count of occupied cells of a plate. -/
def countOccupied (B : Plate) : ℕ :=
  ∑ i ∈ Finset.range B.rows, ∑ j ∈ Finset.range B.cols,
    if B.val i j ≠ 0 then 1 else 0

/-- A plate given by a literal row-major list of rows. -/
def listPlate (l : List (List ℕ)) : Plate :=
  ⟨l.length, (l.getD 0 []).length, fun i j => (l.getD i []).getD j 0⟩

/-- The literal 4x4 base plate of the spec (three occupied cells). -/
def plate_overlap_literal_base : Plate :=
  listPlate [[0, 0, 0, 1], [0, 0, 1, 0], [0, 1, 0, 0], [0, 0, 0, 0]]

/-- A candidate sharing exactly two of its three occupied cells with the
base. -/
def plate_overlap_literal_two : Plate :=
  listPlate [[1, 0, 0, 0], [0, 0, 1, 0], [0, 1, 0, 0], [0, 0, 0, 0]]

/-- A candidate with no occupied cell in common with the base. -/
def plate_overlap_literal_none : Plate :=
  listPlate [[1, 0, 0, 0], [1, 0, 0, 0], [0, 0, 0, 0], [0, 0, 0, 0]]

/-!  ### Helper lemmas about the real-analytic primitives -/

/-- The function `Real.arccos` is antitone on all of `ℝ`. -/
lemma arccos_anti {x y : ℝ} (h : x ≤ y) : Real.arccos y ≤ Real.arccos x := by
  rw [Real.arccos_eq_pi_div_two_sub_arcsin, Real.arccos_eq_pi_div_two_sub_arcsin]
  have := Real.monotone_arcsin h
  linarith

/-- The inversion identity behind the destination-point primitives:
`arccos (1 - 2 sin² x) = 2 x` on `[0, π/2]`. -/
lemma arccos_one_sub_two_sin_sq {x : ℝ} (h0 : 0 ≤ x) (h1 : x ≤ Real.pi / 2) :
    Real.arccos (1 - 2 * Real.sin x ^ 2) = 2 * x := by
  have hc : 1 - 2 * Real.sin x ^ 2 = Real.cos (2 * x) := by
    rw [Real.cos_two_mul, Real.cos_sq']; ring
  rw [hc, Real.arccos_cos (by linarith) (by linarith)]

lemma pyround_one : pyround 1 = 1 := by
  unfold pyround
  rw [Int.floor_one]
  norm_num

lemma pyround_five_halves : pyround (5 / 2 : ℝ) = 2 := by
  have hf : ⌊(5 / 2 : ℝ)⌋ = 2 := by
    rw [Int.floor_eq_iff] <;> norm_num
  unfold pyround
  rw [hf]
  norm_num

/-- Python's `int(round(x))` never rounds down by more than one half. -/
lemma pyround_ge (x : ℝ) : x - 1 / 2 ≤ (pyround x : ℝ) := by
  have hle := Int.floor_le x
  have hlt := Int.lt_floor_add_one x
  unfold pyround
  split_ifs with h1 h2 h3 <;> push_cast <;> linarith

lemma distance_self (pos : Position2D) : distance pos pos = 0 := by
  unfold distance
  simp only [sub_self, zero_mul, Real.cos_zero]
  norm_num [Real.sqrt_zero, Real.arcsin_zero]

lemma distance_comm (pos1 pos2 : Position2D) :
    distance pos1 pos2 = distance pos2 pos1 := by
  have k : ∀ u v p : ℝ, Real.cos ((u - v) * p) = Real.cos ((v - u) * p) := by
    intro u v p
    rw [show (u - v) * p = -((v - u) * p) by ring, Real.cos_neg]
  simp only [distance]
  rw [k pos2.latitude pos1.latitude, k pos2.longitude pos1.longitude,
    mul_comm (Real.cos (pos1.latitude * (Real.pi / 180)))
      (Real.cos (pos2.latitude * (Real.pi / 180)))]

lemma distance_nonneg (pos1 pos2 : Position2D) : 0 ≤ distance pos1 pos2 := by
  simp only [distance]
  exact mul_nonneg
    (mul_nonneg (by norm_num)
      (Real.arcsin_nonneg.mpr (Real.sqrt_nonneg _))) (by norm_num)

/-- Closed form of the haversine along a meridian: for `0 ≤ lat2 - lat1 ≤ 180`
the distance is linear in the latitude difference. -/
lemma distance_same_longitude {lat1 lat2 lon : ℝ} (h0 : lat1 ≤ lat2)
    (h1 : lat2 - lat1 ≤ 180) :
    distance ⟨lat1, lon⟩ ⟨lat2, lon⟩ =
      12742000 * ((lat2 - lat1) * (Real.pi / 180) / 2) := by
  have hpi := Real.pi_pos
  set y : ℝ := (lat2 - lat1) * (Real.pi / 180) / 2 with hy
  have hy0 : 0 ≤ y := by
    have : 0 ≤ lat2 - lat1 := by linarith
    positivity
  have hy2 : y ≤ Real.pi / 2 := by
    rw [hy, div_le_div_iff (by norm_num : (0:ℝ) < 2) (by norm_num : (0:ℝ) < 2)]
    calc (lat2 - lat1) * (Real.pi / 180) * 2 ≤ 180 * (Real.pi / 180) * 2 := by
          have hp : (0:ℝ) ≤ Real.pi / 180 := by positivity
          nlinarith
      _ = Real.pi * 2 := by ring
  simp only [distance]
  simp only [sub_self, zero_mul, Real.cos_zero]
  have ha : 0.5 - Real.cos ((lat2 - lat1) * (Real.pi / 180)) / 2
      + Real.cos (lat1 * (Real.pi / 180)) * Real.cos (lat2 * (Real.pi / 180))
        * 0 / 2 = Real.sin y ^ 2 := by
    have h2y : 2 * y = (lat2 - lat1) * (Real.pi / 180) := by rw [hy]; ring
    have hcm := Real.cos_two_mul y
    have hcs := Real.cos_sq' y
    rw [h2y] at hcm
    rw [hcm, hcs]
    ring
  rw [ha, Real.sqrt_sq_eq_abs,
    abs_of_nonneg (Real.sin_nonneg_of_nonneg_of_le_pi hy0 (by linarith)),
    Real.arcsin_sin (by linarith) hy2]
  ring

/-- Closed form of `get_latitude_at_distance _ _ true` for `d/D ∈ [0, π/2]`. -/
lemma get_latitude_at_distance_true (position : Position2D) {d : ℝ}
    (h0 : 0 ≤ d) (h1 : d / 12742000 ≤ Real.pi / 2) :
    get_latitude_at_distance position d true =
      2 * (d / 12742000) / (Real.pi / 180) + position.latitude := by
  simp only [get_latitude_at_distance, if_true]
  rw [arccos_one_sub_two_sin_sq (by positivity) h1]

/-- Closed form of `get_latitude_at_distance _ _ false` for `d/D ∈ [0, π/2]`. -/
lemma get_latitude_at_distance_false (position : Position2D) {d : ℝ}
    (h0 : 0 ≤ d) (h1 : d / 12742000 ≤ Real.pi / 2) :
    get_latitude_at_distance position d false =
      position.latitude - 2 * (d / 12742000) / (Real.pi / 180) := by
  simp only [get_latitude_at_distance, Bool.false_eq_true, if_false]
  rw [arccos_one_sub_two_sin_sq (by positivity) h1]

/-- Closed form of `get_longitude_at_distance` from a zero-latitude position,
where the `cos²/2` denominator is exactly `1/2`. -/
lemma get_longitude_at_distance_lat_zero {lon d : ℝ} (b : Bool)
    (h0 : 0 ≤ d) (h1 : d / 12742000 ≤ Real.pi / 2) :
    get_longitude_at_distance ⟨0, lon⟩ d b =
      if b then 2 * (d / 12742000) / (Real.pi / 180) + lon
      else lon - 2 * (d / 12742000) / (Real.pi / 180) := by
  simp only [get_longitude_at_distance, zero_mul, Real.cos_zero]
  have harg : 1 - Real.sin (d / 12742000) ^ 2 / ((1 : ℝ) ^ 2 / 2) =
      1 - 2 * Real.sin (d / 12742000) ^ 2 := by ring
  rw [harg, arccos_one_sub_two_sin_sq (by positivity) h1]

lemma binChain_eq_map (step : ℝ × ℝ → ℝ × ℝ) (x0 : ℝ × ℝ) (n : ℕ) :
    binChain step x0 n = (List.range (n + 1)).map fun k => step^[k] x0 := by
  induction n with
  | zero => simp [binChain]
  | succ n ih =>
    have hlast : ((List.range (n + 1)).map fun k => step^[k] x0).getLastD x0
        = step^[n] x0 := by
      rw [List.range_succ, List.map_append]
      simp
    rw [binChain, ih, hlast]
    conv_rhs => rw [List.range_succ, List.map_append]
    congr 1
    rw [List.map_singleton, Function.iterate_succ_apply']

lemma binChain_length (step : ℝ × ℝ → ℝ × ℝ) (x0 : ℝ × ℝ) (n : ℕ) :
    (binChain step x0 n).length = n + 1 := by
  rw [binChain_eq_map]; simp

lemma binChain_getD (step : ℝ × ℝ → ℝ × ℝ) (x0 : ℝ × ℝ) {n k : ℕ}
    (hk : k ≤ n) (d : ℝ × ℝ) : (binChain step x0 n).getD k d = step^[k] x0 := by
  rw [binChain_eq_map, List.getD_eq_getElem?_getD, List.getElem?_map,
    List.getElem?_range (by omega)]
  rfl

lemma binChain_getLastD (step : ℝ × ℝ → ℝ × ℝ) (x0 : ℝ × ℝ) (n : ℕ)
    (d : ℝ × ℝ) : (binChain step x0 n).getLastD d = step^[n] x0 := by
  rw [binChain_eq_map, List.range_succ, List.map_append]
  simp

lemma plateInc_rows (P : Plate) (i j : ℤ) : (plateInc P i j).rows = P.rows := rfl

lemma plateInc_cols (P : Plate) (i j : ℤ) : (plateInc P i j).cols = P.cols := rfl

lemma fillPlate_rows (bs : List (ℤ × ℤ)) (normalize : Bool) (m : ℕ) (P : Plate)
    (prev : List (ℤ × ℤ)) : (fillPlate bs normalize m P prev).rows = P.rows := by
  induction bs generalizing P prev with
  | nil => rfl
  | cons b rest ih =>
    rw [fillPlate]
    split_ifs <;> rw [ih] <;> rfl

lemma fillPlate_cols (bs : List (ℤ × ℤ)) (normalize : Bool) (m : ℕ) (P : Plate)
    (prev : List (ℤ × ℤ)) : (fillPlate bs normalize m P prev).cols = P.cols := by
  induction bs generalizing P prev with
  | nil => rfl
  | cons b rest ih =>
    rw [fillPlate]
    split_ifs <;> rw [ih] <;> rfl

lemma convert_rows (segment : List GPXTrackPoint) (w a b c d : ℝ)
    (normalize : Bool) (q : ℕ) :
    (convert_segment_to_plate segment w a b c d normalize q).rows =
      (derive_plate_bins w a b c d).1.length := by
  simp only [convert_segment_to_plate, plateFlip, fillPlate_rows]

lemma convert_cols (segment : List GPXTrackPoint) (w a b c d : ℝ)
    (normalize : Bool) (q : ℕ) :
    (convert_segment_to_plate segment w a b c d normalize q).cols =
      (derive_plate_bins w a b c d).2.length := by
  simp only [convert_segment_to_plate, plateFlip, fillPlate_cols]

/-- Claim C6 (plate shape identity).  The shape of a rasterized plate is the
pair of bin-edge list lengths of `derive_plate_bins` — a function of the five
scalar bounds/width inputs only — so any two segments rasterized against the
same bounds and width produce plates of identical shape. -/
theorem C6_plate_shape_identity (seg1 seg2 : List GPXTrackPoint)
    (w minlat minlon maxlat maxlon : ℝ) (n1 n2 : Bool) (q1 q2 : ℕ) :
    (convert_segment_to_plate seg1 w minlat minlon maxlat maxlon n1 q1).rows =
      (convert_segment_to_plate seg2 w minlat minlon maxlat maxlon n2 q2).rows ∧
    (convert_segment_to_plate seg1 w minlat minlon maxlat maxlon n1 q1).cols =
      (convert_segment_to_plate seg2 w minlat minlon maxlat maxlon n2 q2).cols ∧
    (convert_segment_to_plate seg1 w minlat minlon maxlat maxlon n1 q1).rows =
      (derive_plate_bins w minlat minlon maxlat maxlon).1.length ∧
    (convert_segment_to_plate seg1 w minlat minlon maxlat maxlon n1 q1).cols =
      (derive_plate_bins w minlat minlon maxlat maxlon).2.length := by
  refine ⟨?_, ?_, convert_rows _ _ _ _ _ _ _ _, convert_cols _ _ _ _ _ _ _ _⟩
  · rw [convert_rows, convert_rows]
  · rw [convert_cols, convert_cols]

/-- Latitudes strictly inside the poles have positive cosine (in radians). -/
lemma cos_pos_of_abs_lt_90 {x : ℝ} (h : |x| < 90) :
    0 < Real.cos (x * (Real.pi / 180)) := by
  have hpi := Real.pi_pos
  have h' := abs_lt.mp h
  apply Real.cos_pos_of_mem_Ioo
  have hp : (0:ℝ) < Real.pi / 180 := by positivity
  constructor
  · have he : -(Real.pi / 2) = -90 * (Real.pi / 180) := by ring
    rw [he]
    nlinarith
  · have he : Real.pi / 2 = 90 * (Real.pi / 180) := by ring
    rw [he]
    nlinarith

/-- The latitude bin-edge chain in closed form: each step adds exactly
`2 (w/D) / p` degrees. -/
lemma lat_chain_iterate (w c e0 : ℝ) (hw : 0 ≤ w)
    (hwD : w / 12742000 ≤ Real.pi / 2) : ∀ k : ℕ,
    (fun prev : ℝ × ℝ =>
        (get_latitude_at_distance ⟨prev.1, prev.2⟩ w true, c))^[k] (e0, c) =
      (e0 + k * (2 * (w / 12742000) / (Real.pi / 180)), c)
  | 0 => by simp
  | k + 1 => by
    rw [Function.iterate_succ_apply', lat_chain_iterate w c e0 hw hwD k]
    rw [get_latitude_at_distance_true _ hw hwD, Prod.mk.injEq]
    refine ⟨?_, rfl⟩
    push_cast
    ring

/-- Every element of the longitude bin-edge chain keeps the anchor latitude. -/
lemma lon_chain_fst (w l y : ℝ) : ∀ k : ℕ,
    ((fun prev : ℝ × ℝ =>
      (l, get_longitude_at_distance ⟨prev.1, prev.2⟩ w true))^[k] (l, y)).1 = l
  | 0 => rfl
  | k + 1 => by rw [Function.iterate_succ_apply']

/-- Claim C8 (bin-edge derivation algorithm).  The derived edge lists have
`round(extent/width) + 1` anchors per axis, where the extent is the grid width
plus the haversine distance from the min corner to the opposite corner of
that axis; the first anchor is the destination point `w/2` before the minima;
and every following anchor steps exactly `gird_width` from the *previous*
anchor via the destination-point primitive (cumulative chaining). -/
theorem C8_bin_derivation_algorithm (w minlat minlon maxlat maxlon : ℝ)
    (d : ℝ × ℝ) :
    (derive_plate_bins w minlat minlon maxlat maxlon).1.length =
      (pyround ((w + distance ⟨minlat, minlon⟩ ⟨maxlat, minlon⟩) / w)).toNat
        + 1 ∧
    (derive_plate_bins w minlat minlon maxlat maxlon).2.length =
      (pyround ((w + distance ⟨minlat, minlon⟩ ⟨minlat, maxlon⟩) / w)).toNat
        + 1 ∧
    (derive_plate_bins w minlat minlon maxlat maxlon).1.getD 0 d =
      (get_latitude_at_distance ⟨minlat, minlon⟩ (w / 2) false,
       get_longitude_at_distance ⟨minlat, minlon⟩ (w / 2) false) ∧
    (derive_plate_bins w minlat minlon maxlat maxlon).2.getD 0 d =
      (get_latitude_at_distance ⟨minlat, minlon⟩ (w / 2) false,
       get_longitude_at_distance ⟨minlat, minlon⟩ (w / 2) false) ∧
    (∀ k, k + 1 ≤
        (pyround ((w + distance ⟨minlat, minlon⟩ ⟨maxlat, minlon⟩) / w)).toNat →
      (derive_plate_bins w minlat minlon maxlat maxlon).1.getD (k + 1) d =
        (get_latitude_at_distance
            ⟨((derive_plate_bins w minlat minlon maxlat maxlon).1.getD k d).1,
             ((derive_plate_bins w minlat minlon maxlat maxlon).1.getD k d).2⟩
            w true,
         get_longitude_at_distance ⟨minlat, minlon⟩ (w / 2) false)) ∧
    (∀ k, k + 1 ≤
        (pyround ((w + distance ⟨minlat, minlon⟩ ⟨minlat, maxlon⟩) / w)).toNat →
      (derive_plate_bins w minlat minlon maxlat maxlon).2.getD (k + 1) d =
        (get_latitude_at_distance ⟨minlat, minlon⟩ (w / 2) false,
         get_longitude_at_distance
            ⟨((derive_plate_bins w minlat minlon maxlat maxlon).2.getD k d).1,
             ((derive_plate_bins w minlat minlon maxlat maxlon).2.getD k d).2⟩
            w true)) := by
  simp only [derive_plate_bins]
  refine ⟨binChain_length _ _ _, binChain_length _ _ _, ?_, ?_, ?_, ?_⟩
  · rw [binChain_getD _ _ (Nat.zero_le _)]
    rfl
  · rw [binChain_getD _ _ (Nat.zero_le _)]
    rfl
  · intro k hk
    rw [binChain_getD _ _ hk, binChain_getD _ _ (le_trans (Nat.le_succ k) hk),
      Function.iterate_succ_apply']
  · intro k hk
    rw [binChain_getD _ _ hk, binChain_getD _ _ (le_trans (Nat.le_succ k) hk),
      Function.iterate_succ_apply']

/-- On the (0,0)–(1,0) box with width `D·π/540` the extent-to-width ratio is
exactly `5/2`. -/
lemma ratio_eval :
    (12742000 * (Real.pi / 540) + distance ⟨0, 0⟩ ⟨1, 0⟩) /
      (12742000 * (Real.pi / 540)) = 5 / 2 := by
  rw [distance_same_longitude (by norm_num) (by norm_num)]
  have hpi := Real.pi_pos
  have hne : Real.pi ≠ 0 := ne_of_gt hpi
  field_simp
  ring

/-- Witness for claim C8: the chaining equation instantiated at the first step on
the (0,0)–(1,0) box with width `D·π/540` (there, `round(extent/width) = 2`). -/
theorem C8_witness :
    0 + 1 ≤ (pyround ((12742000 * (Real.pi / 540) + distance ⟨0, 0⟩ ⟨1, 0⟩) /
        (12742000 * (Real.pi / 540)))).toNat ∧
    (derive_plate_bins (12742000 * (Real.pi / 540)) 0 0 1 0).1.getD (0 + 1)
        (0, 0) =
      (get_latitude_at_distance
          ⟨((derive_plate_bins (12742000 * (Real.pi / 540)) 0 0 1 0).1.getD 0
              (0, 0)).1,
           ((derive_plate_bins (12742000 * (Real.pi / 540)) 0 0 1 0).1.getD 0
              (0, 0)).2⟩
          (12742000 * (Real.pi / 540)) true,
       get_longitude_at_distance ⟨0, 0⟩ (12742000 * (Real.pi / 540) / 2)
         false) := by
  have hn : pyround ((12742000 * (Real.pi / 540) + distance ⟨0, 0⟩ ⟨1, 0⟩) /
      (12742000 * (Real.pi / 540))) = 2 := by
    rw [ratio_eval]; exact pyround_five_halves
  have h1 : 0 + 1 ≤ (pyround ((12742000 * (Real.pi / 540) +
      distance ⟨0, 0⟩ ⟨1, 0⟩) / (12742000 * (Real.pi / 540)))).toNat := by
    rw [hn]; norm_num
  exact ⟨h1, (C8_bin_derivation_algorithm (12742000 * (Real.pi / 540)) 0 0 1 0
    (0, 0)).2.2.2.2.1 0 h1⟩

/-- Counterexample for claim C7: on the box (0,0)–(1,0) with grid width `D·π/540`
the extent-to-width ratio is exactly `5/2`; Python's banker rounding maps it
to 2 bins and the last latitude edge lands *exactly* on the box maximum — not
strictly above it. -/
theorem C7_counterexample :
    ¬ (1 < ((derive_plate_bins (12742000 * (Real.pi / 540)) 0 0 1 0).1.getLastD
        (0, 0)).1) := by
  have hpi := Real.pi_pos
  have hn : pyround ((12742000 * (Real.pi / 540) + distance ⟨0, 0⟩ ⟨1, 0⟩) /
      (12742000 * (Real.pi / 540))) = 2 := by
    rw [ratio_eval]; exact pyround_five_halves
  have hwd : 12742000 * (Real.pi / 540) / 12742000 ≤ Real.pi / 2 := by
    rw [show 12742000 * (Real.pi / 540) / 12742000 = Real.pi / 540 by
      field_simp; ring]
    linarith
  have hwd2 : 12742000 * (Real.pi / 540) / 2 / 12742000 ≤ Real.pi / 2 := by
    rw [show 12742000 * (Real.pi / 540) / 2 / 12742000 = Real.pi / 1080 by
      field_simp; ring]
    linarith
  simp only [derive_plate_bins]
  rw [binChain_getLastD, hn]
  rw [show ((2 : ℤ).toNat) = 2 from rfl]
  rw [lat_chain_iterate _ _ _ (by positivity) hwd 2]
  rw [get_latitude_at_distance_false _ (by positivity) hwd2]
  have hval : (Position2D.mk (0:ℝ) 0).latitude -
      2 * (12742000 * (Real.pi / 540) / 2 / 12742000) / (Real.pi / 180) +
      (2 : ℕ) * (2 * (12742000 * (Real.pi / 540) / 12742000) /
        (Real.pi / 180)) = 1 := by
    show (0:ℝ) - 2 * (12742000 * (Real.pi / 540) / 2 / 12742000) /
        (Real.pi / 180) + (2 : ℕ) *
        (2 * (12742000 * (Real.pi / 540) / 12742000) / (Real.pi / 180)) = 1
    have hne : Real.pi ≠ 0 := ne_of_gt hpi
    push_cast
    field_simp
    ring
  show ¬ (1 < (Position2D.mk (0:ℝ) 0).latitude -
      2 * (12742000 * (Real.pi / 540) / 2 / 12742000) / (Real.pi / 180) +
      (2 : ℕ) * (2 * (12742000 * (Real.pi / 540) / 12742000) /
        (Real.pi / 180)))
  rw [hval]
  exact lt_irrefl 1

/-- Stepping the longitude chain by `get_longitude_at_distance _ w true`
covers haversine distance exactly `w` (at a fixed latitude whose cosine
dominates `sin (w/D)`). -/
lemma lon_step_distance (w l u : ℝ) (hw : 0 < w)
    (hwD : w / 12742000 ≤ Real.pi / 2)
    (hcos : Real.sin (w / 12742000) ^ 2 ≤
      Real.cos (l * (Real.pi / 180)) ^ 2) :
    distance ⟨l, u⟩ ⟨l, get_longitude_at_distance ⟨l, u⟩ w true⟩ = w := by
  have hpi := Real.pi_pos
  have hp : (0:ℝ) < Real.pi / 180 := by positivity
  have hpne : Real.pi / 180 ≠ 0 := ne_of_gt hp
  have hsin_pos : 0 < Real.sin (w / 12742000) :=
    Real.sin_pos_of_pos_of_lt_pi (by positivity) (by linarith)
  have hcos2 : 0 < Real.cos (l * (Real.pi / 180)) ^ 2 :=
    lt_of_lt_of_le (by positivity) hcos
  have hb : (0:ℝ) < Real.cos (l * (Real.pi / 180)) ^ 2 / 2 := by linarith
  have hne : Real.cos (l * (Real.pi / 180)) ≠ 0 := by
    intro h
    rw [h] at hcos2
    norm_num at hcos2
  have hwd0 : (0:ℝ) ≤ w / 12742000 := by positivity
  simp only [get_longitude_at_distance, if_true, distance]
  set A : ℝ := 1 - Real.sin (w / 12742000) ^ 2 /
    (Real.cos (l * (Real.pi / 180)) ^ 2 / 2) with hA
  have hA1 : A ≤ 1 := by
    have : 0 ≤ Real.sin (w / 12742000) ^ 2 /
        (Real.cos (l * (Real.pi / 180)) ^ 2 / 2) := by positivity
    rw [hA]; linarith
  have hAm1 : -1 ≤ A := by
    have h2 : Real.sin (w / 12742000) ^ 2 /
        (Real.cos (l * (Real.pi / 180)) ^ 2 / 2) ≤ 2 := by
      rw [div_le_iff hb]
      linarith
    rw [hA]
    linarith
  have hcp : (Real.arccos A / (Real.pi / 180) + u - u) * (Real.pi / 180) =
      Real.arccos A := by
    field_simp
    ring
  rw [sub_self l, zero_mul, Real.cos_zero, hcp, Real.cos_arccos hAm1 hA1]
  have hne2 : Real.cos (l * (Real.pi / 180)) ^ 2 ≠ 0 := ne_of_gt hcos2
  have ha : 0.5 - 1 / 2 + Real.cos (l * (Real.pi / 180)) *
      Real.cos (l * (Real.pi / 180)) * (1 - A) / 2 =
      Real.sin (w / 12742000) ^ 2 := by
    have h1A : 1 - A = 2 * Real.sin (w / 12742000) ^ 2 /
        Real.cos (l * (Real.pi / 180)) ^ 2 := by
      rw [hA, div_div_eq_mul_div]
      ring
    rw [h1A]
    have hc2 : Real.cos (l * (Real.pi / 180)) * Real.cos (l * (Real.pi / 180))
        = Real.cos (l * (Real.pi / 180)) ^ 2 := by ring
    rw [hc2, mul_comm (Real.cos (l * (Real.pi / 180)) ^ 2),
      div_mul_cancel₀ _ hne2]
    norm_num
  rw [ha, Real.sqrt_sq_eq_abs, abs_of_nonneg (le_of_lt hsin_pos),
    Real.arcsin_sin (by linarith) hwD]
  field_simp
  ring

/-- Claim C7 amended (bin-edge coverage, as the code actually behaves).  For a
box strictly inside the poles with `minlat ≤ maxlat ≤ minlat + 180` and a
grid width `0 < w ≤ D·π/2` whose `sin (w/D)` is dominated by the cosine of
the anchor latitude: the first edge of each axis is *strictly below* the box
minimum, consecutive edges on either axis are spaced at haversine distance
*exactly* `w`, and the last *latitude* edge is `≥` the box maximum latitude —
with equality possible exactly in the half-integer rounding case, so "strictly
greater" does not hold in general (and the code does not guarantee that the
last *longitude* edge clears the box maximum). -/
theorem C7_amended_bin_edge_coverage (w minlat minlon maxlat maxlon : ℝ)
    (hw : 0 < w) (hwD : w / 12742000 ≤ Real.pi / 2)
    (hlat : minlat ≤ maxlat) (hlat180 : maxlat - minlat ≤ 180)
    (hpole : |minlat| < 90)
    (hcos : Real.sin (w / 12742000) ^ 2 ≤
      Real.cos (get_latitude_at_distance ⟨minlat, minlon⟩ (w / 2) false *
        (Real.pi / 180)) ^ 2)
    (d : ℝ × ℝ) :
    ((derive_plate_bins w minlat minlon maxlat maxlon).1.getD 0 d).1 <
      minlat ∧
    ((derive_plate_bins w minlat minlon maxlat maxlon).2.getD 0 d).2 <
      minlon ∧
    (∀ k, k + 1 ≤
        (pyround ((w + distance ⟨minlat, minlon⟩ ⟨maxlat, minlon⟩) / w)).toNat →
      distance
        ⟨((derive_plate_bins w minlat minlon maxlat maxlon).1.getD k d).1,
         ((derive_plate_bins w minlat minlon maxlat maxlon).1.getD k d).2⟩
        ⟨((derive_plate_bins w minlat minlon maxlat maxlon).1.getD (k + 1)
            d).1,
         ((derive_plate_bins w minlat minlon maxlat maxlon).1.getD (k + 1)
            d).2⟩ = w) ∧
    (∀ k, k + 1 ≤
        (pyround ((w + distance ⟨minlat, minlon⟩ ⟨minlat, maxlon⟩) / w)).toNat →
      distance
        ⟨((derive_plate_bins w minlat minlon maxlat maxlon).2.getD k d).1,
         ((derive_plate_bins w minlat minlon maxlat maxlon).2.getD k d).2⟩
        ⟨((derive_plate_bins w minlat minlon maxlat maxlon).2.getD (k + 1)
            d).1,
         ((derive_plate_bins w minlat minlon maxlat maxlon).2.getD (k + 1)
            d).2⟩ = w) ∧
    maxlat ≤
      ((derive_plate_bins w minlat minlon maxlat maxlon).1.getLastD d).1 := by
  have hpi := Real.pi_pos
  have hp : (0:ℝ) < Real.pi / 180 := by positivity
  have hwD2 : w / 2 / 12742000 ≤ Real.pi / 2 := by
    have h1 : w / 2 / 12742000 ≤ w / 12742000 := by
      apply div_le_div_of_nonneg_right _ (by norm_num)
      linarith
    linarith
  have hsin2_pos : 0 < Real.sin (w / 2 / 12742000) :=
    Real.sin_pos_of_pos_of_lt_pi (by positivity) (by linarith)
  have e0lat_lt :
      get_latitude_at_distance ⟨minlat, minlon⟩ (w / 2) false < minlat := by
    simp only [get_latitude_at_distance, Bool.false_eq_true, if_false]
    have harc : 0 < Real.arccos (1 - 2 * Real.sin (w / 2 / 12742000) ^ 2) := by
      rw [Real.arccos_pos]
      nlinarith
    have h2 := div_pos harc hp
    linarith
  have e0lon_lt :
      get_longitude_at_distance ⟨minlat, minlon⟩ (w / 2) false < minlon := by
    simp only [get_longitude_at_distance, Bool.false_eq_true, if_false]
    have hcosm := cos_pos_of_abs_lt_90 hpole
    have hb : (0:ℝ) <
        Real.cos (minlat * (Real.pi / 180)) ^ 2 / 2 := by positivity
    have harg : (1:ℝ) - Real.sin (w / 2 / 12742000) ^ 2 /
        (Real.cos (minlat * (Real.pi / 180)) ^ 2 / 2) < 1 := by
      have := div_pos (by positivity :
        (0:ℝ) < Real.sin (w / 2 / 12742000) ^ 2) hb
      linarith
    have harc := Real.arccos_pos.mpr harg
    have h2 := div_pos harc hp
    linarith
  simp only [derive_plate_bins]
  refine ⟨?_, ?_, ?_, ?_, ?_⟩
  · rw [binChain_getD _ _ (Nat.zero_le _)]
    exact e0lat_lt
  · rw [binChain_getD _ _ (Nat.zero_le _)]
    exact e0lon_lt
  · intro k hk
    rw [binChain_getD _ _ hk, binChain_getD _ _ (le_trans (Nat.le_succ k) hk)]
    rw [lat_chain_iterate _ _ _ (le_of_lt hw) hwD k,
      lat_chain_iterate _ _ _ (le_of_lt hw) hwD (k + 1)]
    have hs0 : (0:ℝ) ≤ 2 * (w / 12742000) / (Real.pi / 180) := by positivity
    have hs180 : 2 * (w / 12742000) / (Real.pi / 180) ≤ 180 := by
      rw [div_le_iff hp]
      have : (180:ℝ) * (Real.pi / 180) = Real.pi := by ring
      rw [this]
      linarith
    rw [distance_same_longitude (by push_cast; nlinarith)
      (by push_cast; nlinarith)]
    have hd : get_latitude_at_distance ⟨minlat, minlon⟩ (w / 2) false +
        ((k:ℝ) + 1) * (2 * (w / 12742000) / (Real.pi / 180)) -
        (get_latitude_at_distance ⟨minlat, minlon⟩ (w / 2) false +
          (k:ℝ) * (2 * (w / 12742000) / (Real.pi / 180))) =
        2 * (w / 12742000) / (Real.pi / 180) := by ring
    push_cast
    rw [hd]
    field_simp
    ring
  · intro k hk
    rw [binChain_getD _ _ hk, binChain_getD _ _ (le_trans (Nat.le_succ k) hk),
      Function.iterate_succ_apply']
    have hfst := lon_chain_fst w
      (get_latitude_at_distance ⟨minlat, minlon⟩ (w / 2) false)
      (get_longitude_at_distance ⟨minlat, minlon⟩ (w / 2) false) k
    rw [hfst]
    exact lon_step_distance w _ _ hw hwD hcos
  · rw [binChain_getLastD, lat_chain_iterate _ _ _ (le_of_lt hw) hwD]
    rw [get_latitude_at_distance_false _ (by positivity) hwD2]
    set n := (pyround ((w + distance ⟨minlat, minlon⟩ ⟨maxlat, minlon⟩) / w)).toNat
      with hndef
    have hdist : distance ⟨minlat, minlon⟩ ⟨maxlat, minlon⟩ =
        12742000 * ((maxlat - minlat) * (Real.pi / 180) / 2) :=
      distance_same_longitude hlat hlat180
    have hq0 : 0 ≤ distance ⟨minlat, minlon⟩ ⟨maxlat, minlon⟩ :=
      distance_nonneg _ _
    have hpy_pos : 0 <
        pyround ((w + distance ⟨minlat, minlon⟩ ⟨maxlat, minlon⟩) / w) := by
      have h1 := pyround_ge
        ((w + distance ⟨minlat, minlon⟩ ⟨maxlat, minlon⟩) / w)
      have hr1 : 1 ≤ (w + distance ⟨minlat, minlon⟩ ⟨maxlat, minlon⟩) / w := by
        rw [le_div_iff hw]
        linarith
      by_contra hle
      push_neg at hle
      have : ((pyround ((w + distance ⟨minlat, minlon⟩ ⟨maxlat, minlon⟩) / w)
          : ℤ) : ℝ) ≤ 0 := by exact_mod_cast hle
      linarith
    have hcast : ((n : ℕ) : ℝ) =
        ((pyround ((w + distance ⟨minlat, minlon⟩ ⟨maxlat, minlon⟩) / w)
          : ℤ) : ℝ) := by
      rw [hndef]
      exact_mod_cast congrArg Int.cast (Int.toNat_of_nonneg (le_of_lt hpy_pos))
    have hge : (w + distance ⟨minlat, minlon⟩ ⟨maxlat, minlon⟩) / w - 1 / 2 ≤
        ((n : ℕ) : ℝ) := by
      rw [hcast]
      exact pyround_ge _
    have key : w / 2 + 12742000 * ((maxlat - minlat) * (Real.pi / 180) / 2) ≤
        ((n : ℕ) : ℝ) * w := by
      have h4 : (w + distance ⟨minlat, minlon⟩ ⟨maxlat, minlon⟩) / w ≤
          ((n : ℕ) : ℝ) + 1 / 2 := by linarith
      rw [div_le_iff hw] at h4
      rw [hdist] at h4
      nlinarith
    set c : ℝ := 360 / (12742000 * Real.pi) with hc
    have hc0 : 0 < c := by rw [hc]; positivity
    have h1 : 2 * (w / 12742000) / (Real.pi / 180) = w * c := by
      rw [hc]; field_simp; ring
    have h2 : 2 * (w / 2 / 12742000) / (Real.pi / 180) = w * c / 2 := by
      rw [hc]; field_simp; ring
    have h3 : 12742000 * ((maxlat - minlat) * (Real.pi / 180) / 2) * c =
        maxlat - minlat := by
      rw [hc]; field_simp; ring
    rw [h1, h2]
    have key2 : (w / 2 + 12742000 * ((maxlat - minlat) * (Real.pi / 180) / 2))
        * c ≤ ((n : ℕ) : ℝ) * w * c :=
      mul_le_mul_of_nonneg_right key (le_of_lt hc0)
    have key3 : w * c / 2 + (maxlat - minlat) ≤ ((n : ℕ) : ℝ) * (w * c) := by
      have hexp : (w / 2 + 12742000 * ((maxlat - minlat) * (Real.pi / 180) / 2))
          * c = w * c / 2 +
            12742000 * ((maxlat - minlat) * (Real.pi / 180) / 2) * c := by ring
      rw [hexp, h3] at key2
      have hassoc : ((n : ℕ) : ℝ) * w * c = ((n : ℕ) : ℝ) * (w * c) := by ring
      rw [hassoc] at key2
      linarith
    have hmm : (Position2D.mk minlat minlon).latitude = minlat := rfl
    rw [hmm]
    linarith

/-- Witness for the amended claim C7: the amended coverage statement instantiated on
the box (0,0)–(1,0) with grid width `D·π/360`. -/
theorem C7_amended_witness :
    (0:ℝ) < 12742000 * (Real.pi / 360) ∧
    1 ≤ ((derive_plate_bins (12742000 * (Real.pi / 360)) 0 0 1 0).1.getLastD
      (0, 0)).1 := by
  have hpi := Real.pi_pos
  have hw : (0:ℝ) < 12742000 * (Real.pi / 360) := by positivity
  have hwD : 12742000 * (Real.pi / 360) / 12742000 ≤ Real.pi / 2 := by
    rw [show 12742000 * (Real.pi / 360) / 12742000 = Real.pi / 360 by
      field_simp; ring]
    linarith
  have hl : get_latitude_at_distance ⟨(0:ℝ), (0:ℝ)⟩
      (12742000 * (Real.pi / 360) / 2) false = -(1/2 : ℝ) := by
    have hwd2 : 12742000 * (Real.pi / 360) / 2 / 12742000 ≤ Real.pi / 2 := by
      rw [show 12742000 * (Real.pi / 360) / 2 / 12742000 = Real.pi / 720 by
        field_simp; ring]
      linarith
    rw [get_latitude_at_distance_false _ (by positivity) hwd2]
    show (0:ℝ) - 2 * (12742000 * (Real.pi / 360) / 2 / 12742000) /
        (Real.pi / 180) = -(1/2 : ℝ)
    have hne : Real.pi ≠ 0 := ne_of_gt hpi
    field_simp
    ring
  have hcos : Real.sin (12742000 * (Real.pi / 360) / 12742000) ^ 2 ≤
      Real.cos (get_latitude_at_distance ⟨(0:ℝ), (0:ℝ)⟩
        (12742000 * (Real.pi / 360) / 2) false * (Real.pi / 180)) ^ 2 := by
    rw [hl]
    rw [show 12742000 * (Real.pi / 360) / 12742000 = Real.pi / 360 by
      field_simp; ring]
    rw [show -(1/2 : ℝ) * (Real.pi / 180) = -(Real.pi / 360) by ring,
      Real.cos_neg]
    have hx : (0:ℝ) < Real.pi / 360 := by positivity
    have hsin_lt : Real.sin (Real.pi / 360) < Real.pi / 360 :=
      Real.sin_lt hx
    have hsin_n : 0 ≤ Real.sin (Real.pi / 360) :=
      Real.sin_nonneg_of_nonneg_of_le_pi (le_of_lt hx) (by linarith)
    have hpi4 := Real.pi_lt_four
    have hsq : Real.sin (Real.pi / 360) ^ 2 ≤ (1:ℝ) / 2 := by nlinarith
    have hcos_sq : Real.cos (Real.pi / 360) ^ 2 =
        1 - Real.sin (Real.pi / 360) ^ 2 := Real.cos_sq' _
    nlinarith
  exact ⟨hw, (C7_amended_bin_edge_coverage (12742000 * (Real.pi / 360))
    0 0 1 0 hw hwD (by norm_num) (by norm_num) (by norm_num) hcos
    (0, 0)).2.2.2.2⟩

/-- Claim C9 (distance symmetry and metric validity).  `distance` is symmetric,
zero on coincident points, and — for positions with latitudes strictly inside
the poles and coordinate differences below a full revolution — zero *only* on
coincident points. -/
theorem C9_distance_symmetric_zero_iff :
    (∀ a b : Position2D, distance a b = distance b a) ∧
    (∀ a : Position2D, distance a a = 0) ∧
    (∀ a b : Position2D, |a.latitude| < 90 → |b.latitude| < 90 →
      |b.latitude - a.latitude| < 360 → |b.longitude - a.longitude| < 360 →
      (distance a b = 0 ↔
        a.latitude = b.latitude ∧ a.longitude = b.longitude)) := by
  refine ⟨distance_comm, distance_self, ?_⟩
  intro a b hla hlb hdla hdlo
  have hpi := Real.pi_pos
  constructor
  · intro h0
    simp only [distance] at h0
    set p : ℝ := Real.pi / 180 with hp
    have hppos : 0 < p := by positivity
    set T1 : ℝ := 0.5 - Real.cos ((b.latitude - a.latitude) * p) / 2 with hT1
    set T2 : ℝ := Real.cos (a.latitude * p) * Real.cos (b.latitude * p) *
      (1 - Real.cos ((b.longitude - a.longitude) * p)) / 2 with hT2
    have hT1n : 0 ≤ T1 := by
      have := Real.cos_le_one ((b.latitude - a.latitude) * p)
      rw [hT1]; linarith
    have hcosa : 0 < Real.cos (a.latitude * p) := by
      apply Real.cos_pos_of_mem_Ioo
      constructor
      · have : -(90 * p) < a.latitude * p := by
          have := abs_lt.mp hla
          nlinarith
        calc -(Real.pi / 2) = -(90 * p) := by rw [hp]; ring
          _ < a.latitude * p := this
      · have : a.latitude * p < 90 * p := by
          have := abs_lt.mp hla
          nlinarith
        calc a.latitude * p < 90 * p := this
          _ = Real.pi / 2 := by rw [hp]; ring
    have hcosb : 0 < Real.cos (b.latitude * p) := by
      apply Real.cos_pos_of_mem_Ioo
      constructor
      · have : -(90 * p) < b.latitude * p := by
          have := abs_lt.mp hlb
          nlinarith
        calc -(Real.pi / 2) = -(90 * p) := by rw [hp]; ring
          _ < b.latitude * p := this
      · have : b.latitude * p < 90 * p := by
          have := abs_lt.mp hlb
          nlinarith
        calc b.latitude * p < 90 * p := this
          _ = Real.pi / 2 := by rw [hp]; ring
    have hT2n : 0 ≤ T2 := by
      have := Real.cos_le_one ((b.longitude - a.longitude) * p)
      rw [hT2]
      have : 0 ≤ 1 - Real.cos ((b.longitude - a.longitude) * p) := by linarith
      positivity
    have hS : T1 + T2 = 0 := by
      have h12742 : (12742 : ℝ) ≠ 0 := by norm_num
      have h1000 : (1000 : ℝ) ≠ 0 := by norm_num
      have harc : Real.arcsin (Real.sqrt (T1 + T2)) = 0 := by
        by_contra hne
        apply hne
        have := mul_eq_zero.mp h0
        rcases this with h | h
        · have := mul_eq_zero.mp h
          rcases this with h' | h'
          · exact absurd h' h12742
          · exact h'
        · exact absurd h h1000
      have := Real.arcsin_eq_zero_iff.mp harc
      exact (Real.sqrt_eq_zero (by linarith)).mp this
    obtain ⟨h1, h2⟩ := (add_eq_zero_iff_of_nonneg hT1n hT2n).mp hS
    constructor
    · have hcos1 : Real.cos ((b.latitude - a.latitude) * p) = 1 := by
        rw [hT1] at h1; linarith
      have hrange : -(2 * Real.pi) < (b.latitude - a.latitude) * p ∧
          (b.latitude - a.latitude) * p < 2 * Real.pi := by
        have := abs_lt.mp hdla
        constructor <;> nlinarith
      have := (Real.cos_eq_one_iff_of_lt_of_lt hrange.1 hrange.2).mp hcos1
      have : b.latitude - a.latitude = 0 := by
        rcases mul_eq_zero.mp this with h | h
        · exact h
        · exact absurd h (ne_of_gt hppos)
      linarith
    · have hcos2 : Real.cos ((b.longitude - a.longitude) * p) = 1 := by
        rw [hT2] at h2
        have hprod : 0 < Real.cos (a.latitude * p) * Real.cos (b.latitude * p) :=
          mul_pos hcosa hcosb
        by_contra hne
        have hlt : Real.cos ((b.longitude - a.longitude) * p) < 1 :=
          lt_of_le_of_ne (Real.cos_le_one _) hne
        nlinarith
      have hrange : -(2 * Real.pi) < (b.longitude - a.longitude) * p ∧
          (b.longitude - a.longitude) * p < 2 * Real.pi := by
        have := abs_lt.mp hdlo
        constructor <;> nlinarith
      have := (Real.cos_eq_one_iff_of_lt_of_lt hrange.1 hrange.2).mp hcos2
      have : b.longitude - a.longitude = 0 := by
        rcases mul_eq_zero.mp this with h | h
        · exact h
        · exact absurd h (ne_of_gt hppos)
      linarith
  · rintro ⟨h1, h2⟩
    have : distance a b = distance b b := by
      simp only [distance]
      rw [h1, h2]
    rw [this, distance_self]

/-- Witness for claim C9: instantiating the only-if direction at the two distinct
concrete positions (0,0) and (1,0) shows their distance is nonzero. -/
theorem C9_witness :
    |(Position2D.mk 0 0).latitude| < 90 ∧ |(Position2D.mk 1 0).latitude| < 90 ∧
    distance ⟨0, 0⟩ ⟨1, 0⟩ ≠ 0 := by
  refine ⟨by norm_num, by norm_num, ?_⟩
  intro h0
  have h := (C9_distance_symmetric_zero_iff.2.2 ⟨0, 0⟩ ⟨1, 0⟩ (by norm_num)
    (by norm_num) (by norm_num) (by norm_num)).mp h0
  exact absurd h.1 (by norm_num)

/-!  ### Rasterization: digitize, fill loop, de-duplication (C4) -/

/-- Moving south never increases the latitude (`arccos ≥ 0`). -/
lemma get_latitude_at_distance_false_le (position : Position2D) (d : ℝ) :
    get_latitude_at_distance position d false ≤ position.latitude := by
  simp only [get_latitude_at_distance, Bool.false_eq_true, if_false]
  have h1 := Real.arccos_nonneg (1 - 2 * Real.sin (d / 12742000) ^ 2)
  have h2 : (0:ℝ) ≤ Real.pi / 180 := by positivity
  have := div_nonneg h1 h2
  linarith

/-- Moving west never increases the longitude (`arccos ≥ 0`). -/
lemma get_longitude_at_distance_false_le (position : Position2D) (d : ℝ) :
    get_longitude_at_distance position d false ≤ position.longitude := by
  simp only [get_longitude_at_distance, Bool.false_eq_true, if_false]
  have h1 := Real.arccos_nonneg (1 - Real.sin (d / 12742000) ^ 2 /
    (Real.cos (position.latitude * (Real.pi / 180)) ^ 2 / 2))
  have h2 : (0:ℝ) ≤ Real.pi / 180 := by positivity
  have := div_nonneg h1 h2
  linarith

lemma le_plateMax (P : Plate) {i j : ℕ} (hi : i < P.rows) (hj : j < P.cols) :
    P.val i j ≤ plateMax P := by
  unfold plateMax
  exact le_trans (Finset.le_sup (Finset.mem_range.mpr hj))
    (Finset.le_sup (f := fun i => Finset.sup (Finset.range P.cols)
      fun j => P.val i j) (Finset.mem_range.mpr hi))

lemma one_le_digitize {x a : ℝ} {bins : List ℝ} (ha : a ∈ bins)
    (hax : a ≤ x) : 1 ≤ digitize x bins := by
  unfold digitize
  have : a ∈ bins.filter fun b => decide (b ≤ x) :=
    List.mem_filter.mpr ⟨ha, decide_eq_true hax⟩
  have := List.length_pos.mpr (List.ne_nil_of_mem this)
  omega

lemma digitize_le_length (x : ℝ) (bins : List ℝ) :
    digitize x bins ≤ bins.length :=
  List.length_filter_le _ _

lemma binChain_head_mem (step : ℝ × ℝ → ℝ × ℝ) (x0 : ℝ × ℝ) (n : ℕ) :
    x0 ∈ binChain step x0 n := by
  rw [binChain_eq_map]
  exact List.mem_map.mpr ⟨0, by simp, rfl⟩

/-- The first latitude edge anchor is a member of the derived latitude
edge-coordinate list. -/
lemma first_lat_edge_mem (w a b c d : ℝ) :
    get_latitude_at_distance ⟨a, b⟩ (w / 2) false ∈
      (derive_plate_bins w a b c d).1.map Prod.fst := by
  simp only [derive_plate_bins]
  exact List.mem_map.mpr ⟨_, binChain_head_mem _ _ _, rfl⟩

/-- The first longitude edge anchor is a member of the derived longitude
edge-coordinate list. -/
lemma first_lon_edge_mem (w a b c d : ℝ) :
    get_longitude_at_distance ⟨a, b⟩ (w / 2) false ∈
      (derive_plate_bins w a b c d).2.map Prod.snd := by
  simp only [derive_plate_bins]
  exact List.mem_map.mpr ⟨_, binChain_head_mem _ _ _, rfl⟩

lemma npIndex_of_in_range {x : ℤ} {n : ℕ} (h0 : 0 ≤ x) (h1 : x < (n : ℤ)) :
    npIndex x n = x.toNat := by
  unfold npIndex
  rw [Int.emod_eq_of_lt h0 h1]

/-- The fill-loop invariant: with in-range bin indices and a window that
never evicts (capacity at least the total number of points), every cell of
the normalized plate stays at most 1. -/
lemma fillPlate_le_one (m : ℕ) (bs : List (ℤ × ℤ)) :
    ∀ (P : Plate) (prev : List (ℤ × ℤ)),
    (∀ b ∈ bs, 0 ≤ b.1 ∧ b.1 < (P.rows : ℤ) ∧ 0 ≤ b.2 ∧ b.2 < (P.cols : ℤ)) →
    prev.length + bs.length ≤ m →
    (∀ i j, P.val i j ≤ 1) →
    (∀ b : ℤ × ℤ, 0 ≤ b.1 → b.1 < (P.rows : ℤ) → 0 ≤ b.2 →
      b.2 < (P.cols : ℤ) → b ∉ prev →
      P.val (npIndex b.1 P.rows) (npIndex b.2 P.cols) = 0) →
    ∀ i j, (fillPlate bs true m P prev).val i j ≤ 1 := by
  induction bs with
  | nil =>
    intro P prev _ _ hle _ i j
    exact hle i j
  | cons b rest ih =>
    intro P prev hbs hbudget hle hzero i j
    rw [fillPlate, if_pos rfl]
    by_cases hmem : b ∈ prev
    · rw [if_pos hmem]
      refine ih P prev (fun x hx => hbs x (List.mem_cons_of_mem _ hx)) ?_
        hle hzero i j
      simp only [List.length_cons] at hbudget
      omega
    · rw [if_neg hmem]
      obtain ⟨hb1, hb2, hb3, hb4⟩ := hbs b (List.mem_cons_self b rest)
      have hval0 : P.val (npIndex b.1 P.rows) (npIndex b.2 P.cols) = 0 :=
        hzero b hb1 hb2 hb3 hb4 hmem
      have hpush : dequePush prev m b = prev ++ [b] := by
        unfold dequePush
        rw [if_pos]
        simp only [List.length_append, List.length_nil,
          List.length_cons] at hbudget ⊢
        omega
      rw [hpush]
      refine ih (plateInc P b.1 b.2) (prev ++ [b])
        (fun x hx => hbs x (List.mem_cons_of_mem _ hx)) ?_ ?_ ?_ i j
      · simp only [List.length_append, List.length_nil,
          List.length_cons] at hbudget ⊢
        omega
      · intro i' j'
        simp only [plateInc]
        split_ifs with hsplit
        · obtain ⟨hi', hj'⟩ := hsplit
          rw [hi', hj', hval0]
        · exact hle i' j'
      · intro b' h1 h2 h3 h4 hmem'
        have h2' : b'.1 < (P.rows : ℤ) := h2
        have h4' : b'.2 < (P.cols : ℤ) := h4
        have hb'prev : b' ∉ prev := fun hh => hmem' (List.mem_append_left _ hh)
        have hb'b : b' ≠ b := by
          intro hh
          exact hmem' (by rw [hh]; exact List.mem_append_right _ (by simp))
        show (plateInc P b.1 b.2).val (npIndex b'.1 P.rows)
          (npIndex b'.2 P.cols) = 0
        simp only [plateInc]
        rw [if_neg]
        · exact hzero b' h1 h2' h3 h4' hb'prev
        · rintro ⟨hh1, hh2⟩
          apply hb'b
          rw [npIndex_of_in_range h1 h2', npIndex_of_in_range hb1 hb2] at hh1
          rw [npIndex_of_in_range h3 h4', npIndex_of_in_range hb3 hb4] at hh2
          have e1 : b'.1 = b.1 := by omega
          have e2 : b'.2 = b.2 := by omega
          exact Prod.ext e1 e2

/-- Claim C4 amended (normalized rasterization yields a binary plate — under
the conditions the pipeline establishes).  For a segment whose points lie at
or above the grid minima and a de-duplication window at least as long as the
segment (so nothing is ever evicted), every cell of the normalized plate is
at most 1.  (The unrestricted claim is false: a bin revisited after leaving
the window — in particular any repeat with a window length of 0 — increments
its cell a second time.) -/
theorem C4_amended_normalized_plate_binary (segment : List GPXTrackPoint)
    (w minlat minlon maxlat maxlon : ℝ) (q : ℕ)
    (hin : ∀ pt ∈ segment, minlat ≤ pt.latitude ∧ minlon ≤ pt.longitude)
    (hq : segment.length ≤ q) :
    ∀ i j, (convert_segment_to_plate segment w minlat minlon maxlat maxlon
      true q).val i j ≤ 1 := by
  intro i j
  simp only [convert_segment_to_plate, plateFlip]
  apply fillPlate_le_one q _ _ []
  · intro b hb
    simp only [List.mem_map] at hb
    obtain ⟨pt, hpt, rfl⟩ := hb
    obtain ⟨hlat, hlon⟩ := hin pt hpt
    have hd1 : 1 ≤ digitize pt.latitude
        ((derive_plate_bins w minlat minlon maxlat maxlon).1.map Prod.fst) :=
      one_le_digitize (first_lat_edge_mem w minlat minlon maxlat maxlon)
        (le_trans (get_latitude_at_distance_false_le _ _) hlat)
    have hd2 : 1 ≤ digitize pt.longitude
        ((derive_plate_bins w minlat minlon maxlat maxlon).2.map Prod.snd) :=
      one_le_digitize (first_lon_edge_mem w minlat minlon maxlat maxlon)
        (le_trans (get_longitude_at_distance_false_le _ _) hlon)
    have hu1 := digitize_le_length pt.latitude
      ((derive_plate_bins w minlat minlon maxlat maxlon).1.map Prod.fst)
    have hu2 := digitize_le_length pt.longitude
      ((derive_plate_bins w minlat minlon maxlat maxlon).2.map Prod.snd)
    simp only [List.length_map] at hu1 hu2
    refine ⟨by omega, by push_cast; omega, by omega, by push_cast; omega⟩
  · simpa using hq
  · intro i' j'
    norm_num
  · intro b' _ _ _ _ _
    rfl

/-- Witness for the amended claim C4: a single-point segment inside its own bounds,
with the default window of 5. -/
theorem C4_amended_witness :
    (∀ pt ∈ [(⟨0, 0, none, none⟩ : GPXTrackPoint)],
      (0:ℝ) ≤ pt.latitude ∧ (0:ℝ) ≤ pt.longitude) ∧
    ∀ i j, (convert_segment_to_plate [⟨0, 0, none, none⟩] 100 0 0 0 0
      true 5).val i j ≤ 1 := by
  have hin : ∀ pt ∈ [(⟨0, 0, none, none⟩ : GPXTrackPoint)],
      (0:ℝ) ≤ pt.latitude ∧ (0:ℝ) ≤ pt.longitude := by
    intro pt hpt
    simp only [List.mem_singleton] at hpt
    rw [hpt]
    exact ⟨le_refl 0, le_refl 0⟩
  exact ⟨hin, C4_amended_normalized_plate_binary _ _ _ _ _ _ _ hin
    (by norm_num)⟩

/-!  ### Concrete evaluation: degenerate bounds (0,0,0,0), width 100 -/

lemma half100_small : (100:ℝ) / 2 / 12742000 ≤ Real.pi / 2 := by
  nlinarith [Real.pi_gt_three]

lemma full100_small : (100:ℝ) / 12742000 ≤ Real.pi / 2 := by
  nlinarith [Real.pi_gt_three]

/-- The latitude edge coordinates of the degenerate grid are the two-element
chain from the half-width anchor. -/
lemma lat_edges_00 :
    (derive_plate_bins 100 0 0 0 0).1.map Prod.fst =
      [get_latitude_at_distance ⟨0, 0⟩ (100 / 2) false,
       get_latitude_at_distance
         ⟨get_latitude_at_distance ⟨0, 0⟩ (100 / 2) false,
          get_longitude_at_distance ⟨0, 0⟩ (100 / 2) false⟩ 100 true] := by
  simp only [derive_plate_bins, distance_self]
  rw [show ((100:ℝ) + 0) / 100 = 1 by norm_num, pyround_one,
    show (1:ℤ).toNat = 1 from rfl, binChain_eq_map]
  simp [List.range_succ]

/-- The longitude edge coordinates of the degenerate grid are the two-element
chain from the half-width anchor. -/
lemma lon_edges_00 :
    (derive_plate_bins 100 0 0 0 0).2.map Prod.snd =
      [get_longitude_at_distance ⟨0, 0⟩ (100 / 2) false,
       get_longitude_at_distance
         ⟨get_latitude_at_distance ⟨0, 0⟩ (100 / 2) false,
          get_longitude_at_distance ⟨0, 0⟩ (100 / 2) false⟩ 100 true] := by
  simp only [derive_plate_bins, distance_self]
  rw [show ((100:ℝ) + 0) / 100 = 1 by norm_num, pyround_one,
    show (1:ℤ).toNat = 1 from rfl, binChain_eq_map]
  simp [List.range_succ]

lemma lat_e1_pos : 0 < get_latitude_at_distance
    ⟨get_latitude_at_distance ⟨0, 0⟩ (100 / 2) false,
     get_longitude_at_distance ⟨0, 0⟩ (100 / 2) false⟩ 100 true := by
  have hpi := Real.pi_pos
  rw [get_latitude_at_distance_true _ (by norm_num) full100_small,
    get_latitude_at_distance_false _ (by norm_num) half100_small]
  show (0:ℝ) < 2 * (100 / 12742000) / (Real.pi / 180) +
    ((0:ℝ) - 2 * (100 / 2 / 12742000) / (Real.pi / 180))
  have heq : 2 * (100 / 12742000) / (Real.pi / 180) +
      ((0:ℝ) - 2 * (100 / 2 / 12742000) / (Real.pi / 180)) =
      (100 / 12742000) * (Real.pi / 180)⁻¹ := by
    field_simp
    ring
  rw [heq]
  positivity

/-- Unfolding of the eastward destination-point step. -/
lemma get_longitude_at_distance_true_eq (position : Position2D) (d : ℝ) :
    get_longitude_at_distance position d true =
      Real.arccos (1 - Real.sin (d / 12742000) ^ 2 /
        (Real.cos (position.latitude * (Real.pi / 180)) ^ 2 / 2)) /
        (Real.pi / 180) + position.longitude := by
  simp only [get_longitude_at_distance, if_true]

lemma lon_e1_pos : 0 < get_longitude_at_distance
    ⟨get_latitude_at_distance ⟨0, 0⟩ (100 / 2) false,
     get_longitude_at_distance ⟨0, 0⟩ (100 / 2) false⟩ 100 true := by
  have hpi := Real.pi_pos
  have hp : (0:ℝ) < Real.pi / 180 := by positivity
  have hD100 : (0:ℝ) < 100 / 12742000 := by norm_num
  have hD100' : (100:ℝ) / 12742000 < Real.pi / 2 := by
    nlinarith [Real.pi_gt_three]
  -- the anchor latitude in radians is exactly `-(100/D)`
  have he0 : get_latitude_at_distance ⟨(0:ℝ), 0⟩ (100 / 2) false *
      (Real.pi / 180) = -(100 / 12742000) := by
    rw [get_latitude_at_distance_false _ (by norm_num) half100_small]
    show ((0:ℝ) - 2 * (100 / 2 / 12742000) / (Real.pi / 180)) *
      (Real.pi / 180) = -(100 / 12742000)
    field_simp
    ring
  have hcos_pos : 0 < Real.cos ((100:ℝ) / 12742000) := by
    apply Real.cos_pos_of_mem_Ioo
    constructor <;> nlinarith [Real.pi_gt_three]
  rw [get_longitude_at_distance_true_eq]
  dsimp only
  rw [he0, Real.cos_neg]
  -- the eastward step dominates twice the half-width step
  have harg : 1 - Real.sin (100 / 12742000) ^ 2 /
      (Real.cos ((100:ℝ) / 12742000) ^ 2 / 2) ≤
      1 - 2 * Real.sin (100 / 12742000) ^ 2 := by
    have hc1 : Real.cos ((100:ℝ) / 12742000) ^ 2 ≤ 1 := Real.cos_sq_le_one _
    have hb : (0:ℝ) < Real.cos ((100:ℝ) / 12742000) ^ 2 / 2 := by positivity
    have h2 : 2 * Real.sin (100 / 12742000) ^ 2 ≤
        Real.sin (100 / 12742000) ^ 2 /
          (Real.cos ((100:ℝ) / 12742000) ^ 2 / 2) := by
      rw [le_div_iff hb]
      nlinarith [sq_nonneg (Real.sin (100 / 12742000))]
    linarith
  have harc : 2 * ((100:ℝ) / 12742000) ≤ Real.arccos
      (1 - Real.sin (100 / 12742000) ^ 2 /
        (Real.cos ((100:ℝ) / 12742000) ^ 2 / 2)) := by
    have h1 := arccos_anti harg
    rw [arccos_one_sub_two_sin_sq (le_of_lt hD100) (le_of_lt hD100')] at h1
    exact h1
  have he0lon : get_longitude_at_distance ⟨(0:ℝ), 0⟩ (100 / 2) false =
      (0:ℝ) - 2 * (100 / 2 / 12742000) / (Real.pi / 180) := by
    rw [get_longitude_at_distance_lat_zero false (by norm_num) half100_small]
    norm_num
  rw [he0lon]
  have hdiv : 2 * ((100:ℝ) / 12742000) / (Real.pi / 180) ≤ Real.arccos
      (1 - Real.sin (100 / 12742000) ^ 2 /
        (Real.cos ((100:ℝ) / 12742000) ^ 2 / 2)) / (Real.pi / 180) :=
    (div_le_div_right hp).mpr harc
  have hval : (0:ℝ) < 2 * ((100:ℝ) / 12742000) / (Real.pi / 180) +
      ((0:ℝ) - 2 * (100 / 2 / 12742000) / (Real.pi / 180)) := by
    have heq : 2 * ((100:ℝ) / 12742000) / (Real.pi / 180) +
        ((0:ℝ) - 2 * (100 / 2 / 12742000) / (Real.pi / 180)) =
        (100 / 12742000) * (Real.pi / 180)⁻¹ := by
      field_simp
      ring
    rw [heq]
    positivity
  linarith

/-- A point at the degenerate-bounds origin digitizes into latitude bin 1
(0-indexed bin 0 after the `- 1` shift). -/
lemma digitize_lat00 : digitize (0:ℝ)
    ((derive_plate_bins 100 0 0 0 0).1.map Prod.fst) = 1 := by
  rw [lat_edges_00]
  unfold digitize
  rw [List.filter_cons, List.filter_cons, List.filter_nil,
    decide_eq_true (show get_latitude_at_distance ⟨0, 0⟩ (100 / 2) false ≤ 0
      from get_latitude_at_distance_false_le ⟨0, 0⟩ (100 / 2)),
    decide_eq_false (show ¬ (get_latitude_at_distance
        ⟨get_latitude_at_distance ⟨0, 0⟩ (100 / 2) false,
         get_longitude_at_distance ⟨0, 0⟩ (100 / 2) false⟩ 100 true ≤ 0)
      from not_le.mpr lat_e1_pos)]
  simp

/-- A point at the degenerate-bounds origin digitizes into longitude bin 1
(0-indexed bin 0 after the `- 1` shift). -/
lemma digitize_lon00 : digitize (0:ℝ)
    ((derive_plate_bins 100 0 0 0 0).2.map Prod.snd) = 1 := by
  rw [lon_edges_00]
  unfold digitize
  rw [List.filter_cons, List.filter_cons, List.filter_nil,
    decide_eq_true (show get_longitude_at_distance ⟨0, 0⟩ (100 / 2) false ≤ 0
      from get_longitude_at_distance_false_le ⟨0, 0⟩ (100 / 2)),
    decide_eq_false (show ¬ (get_longitude_at_distance
        ⟨get_latitude_at_distance ⟨0, 0⟩ (100 / 2) false,
         get_longitude_at_distance ⟨0, 0⟩ (100 / 2) false⟩ 100 true ≤ 0)
      from not_le.mpr lon_e1_pos)]
  simp

lemma lat_bins_00_length : (derive_plate_bins 100 0 0 0 0).1.length = 2 := by
  have h := congrArg List.length lat_edges_00
  simpa using h

lemma lon_bins_00_length : (derive_plate_bins 100 0 0 0 0).2.length = 2 := by
  have h := congrArg List.length lon_edges_00
  simpa using h

/-- On the degenerate bounds any all-origin segment rasterizes on a 2x2 grid
with every point in bin (0,0). -/
lemma convert00_eval (norm : Bool) (q : ℕ) (pts : List GPXTrackPoint)
    (hpts : ∀ pt ∈ pts, pt.latitude = 0 ∧ pt.longitude = 0) :
    convert_segment_to_plate pts 100 0 0 0 0 norm q =
      plateFlip (fillPlate (pts.map fun _ => ((0:ℤ), (0:ℤ))) norm q
        ⟨2, 2, fun _ _ => 0⟩ []) := by
  have hbs : pts.map (fun point =>
      ((digitize point.latitude
          ((derive_plate_bins 100 0 0 0 0).1.map Prod.fst) : ℤ) - 1,
       (digitize point.longitude
          ((derive_plate_bins 100 0 0 0 0).2.map Prod.snd) : ℤ) - 1)) =
      pts.map fun _ => ((0:ℤ), (0:ℤ)) := by
    apply List.map_congr_left
    intro pt hpt
    obtain ⟨h1, h2⟩ := hpts pt hpt
    rw [h1, h2, digitize_lat00, digitize_lon00]
    norm_num
  simp only [convert_segment_to_plate]
  rw [hbs, lat_bins_00_length, lon_bins_00_length]

open Classical in
/-- Cropping an all-origin segment to the degenerate box keeps every point. -/
lemma crop00 (pts : List GPXTrackPoint)
    (hpts : ∀ pt ∈ pts, pt.latitude = 0 ∧ pt.longitude = 0) :
    crop_segment_to_bounds pts 0 0 0 0 = pts := by
  unfold crop_segment_to_bounds
  induction pts with
  | nil => rfl
  | cons p rest ih =>
    obtain ⟨h1, h2⟩ := hpts p (List.mem_cons_self p rest)
    have hdec : decide (inBounds 0 0 0 0 p) = true :=
      decide_eq_true (by
        unfold inBounds
        rw [h1, h2]
        norm_num)
    rw [List.filter_cons, hdec, if_pos rfl,
      ih fun pt hpt => hpts pt (List.mem_cons_of_mem _ hpt)]

/-!  ### The overlap score (C3) -/

/-- Claim C3 (overlap scoring).  On plates with values in {0,1} (the normalized
plates of the pipeline), the score of the elementwise-sum/three-bucket
digitization equals count(cells occupied in both)/count(candidate-occupied
cells); on the literal plates of the spec it evaluates to 1, 2/3 and 0. -/
theorem C3_overlap_score :
    (∀ A B : Plate, A.rows = B.rows → A.cols = B.cols →
      (∀ i < A.rows, ∀ j < A.cols, A.val i j ≤ 1) →
      (∀ i < B.rows, ∀ j < B.cols, B.val i j ≤ 1) →
      overlap_ratio A B = (countCommon A B : ℚ) / (countOccupied B : ℚ)) ∧
    overlap_ratio plate_overlap_literal_base plate_overlap_literal_base = 1 ∧
    overlap_ratio plate_overlap_literal_base plate_overlap_literal_two =
      2 / 3 ∧
    overlap_ratio plate_overlap_literal_base plate_overlap_literal_none =
      0 := by
  have e1 : plateSum (plateBucket (plateAdd plate_overlap_literal_base
      plate_overlap_literal_base)) = 3 := by decide
  have e2 : plateSum plate_overlap_literal_base = 3 := by decide
  have e3 : plateSum (plateBucket (plateAdd plate_overlap_literal_base
      plate_overlap_literal_two)) = 2 := by decide
  have e4 : plateSum plate_overlap_literal_two = 3 := by decide
  have e5 : plateSum (plateBucket (plateAdd plate_overlap_literal_base
      plate_overlap_literal_none)) = 0 := by decide
  have e6 : plateSum plate_overlap_literal_none = 2 := by decide
  refine ⟨?_, by simp only [overlap_ratio, e1, e2]; norm_num,
    by simp only [overlap_ratio, e3, e4]; norm_num,
    by simp only [overlap_ratio, e5, e6]; norm_num⟩
  intro A B hr hc hA hB
  have h1 : plateSum (plateBucket (plateAdd A B)) = countCommon A B := by
    unfold plateSum plateBucket plateAdd countCommon
    apply Finset.sum_congr rfl
    intro i hi
    apply Finset.sum_congr rfl
    intro j hj
    have ha := hA i (Finset.mem_range.mp hi) j (Finset.mem_range.mp hj)
    have hb := hB i (hr ▸ Finset.mem_range.mp hi)
      j (hc ▸ Finset.mem_range.mp hj)
    rcases Nat.le_one_iff_eq_zero_or_eq_one.mp ha with h | h <;>
      rcases Nat.le_one_iff_eq_zero_or_eq_one.mp hb with h' | h' <;>
      simp [bucket3, h, h']
  have h2 : plateSum B = countOccupied B := by
    unfold plateSum countOccupied
    apply Finset.sum_congr rfl
    intro i hi
    apply Finset.sum_congr rfl
    intro j hj
    have hb := hB i (Finset.mem_range.mp hi) j (Finset.mem_range.mp hj)
    rcases Nat.le_one_iff_eq_zero_or_eq_one.mp hb with h | h <;> simp [h]
  simp only [overlap_ratio, h1, h2]

/-- Witness for claim C3: the value-bound hypotheses hold on the literal plates,
where the general formula of C3 applies. -/
theorem C3_witness :
    (∀ i < plate_overlap_literal_base.rows,
      ∀ j < plate_overlap_literal_base.cols,
        plate_overlap_literal_base.val i j ≤ 1) ∧
    overlap_ratio plate_overlap_literal_base plate_overlap_literal_two =
      (countCommon plate_overlap_literal_base plate_overlap_literal_two : ℚ) /
        (countOccupied plate_overlap_literal_two : ℚ) :=
  ⟨by decide, C3_overlap_score.1 _ _ rfl rfl (by decide) (by decide)⟩

/-!  ### Multiple-occurrence rejection (C2) and the C4 counterexample -/

/-- Claim C2 (ambiguous multiple-occurrence match).  Whenever the base plate —
built from the base segment cropped to the candidate's bounds, normalized —
has any cell strictly greater than 1, `get_segment_overlap` returns the
distinct `NotImplementedError` before any scoring, and in particular never
returns a `SegmentOverlap`. -/
theorem C2_multiple_occurrence_error (base_segment match_segment :
    List GPXTrackPoint) (grid_width : ℝ) (max_queue_normalize : ℕ) :
    match match_segment with
    | [] => True
    | p0 :: rest =>
      1 < plateMax (convert_segment_to_plate
          (crop_segment_to_bounds base_segment
            (boundsOfNonempty p0 rest).min_latitude
            (boundsOfNonempty p0 rest).min_longitude
            (boundsOfNonempty p0 rest).max_latitude
            (boundsOfNonempty p0 rest).max_longitude)
          grid_width (boundsOfNonempty p0 rest).min_latitude
          (boundsOfNonempty p0 rest).min_longitude
          (boundsOfNonempty p0 rest).max_latitude
          (boundsOfNonempty p0 rest).max_longitude true max_queue_normalize) →
      get_segment_overlap base_segment match_segment grid_width
        max_queue_normalize = .error .notImplementedMultipleMatches := by
  match match_segment with
  | [] => trivial
  | p0 :: rest =>
    intro h
    simp only [get_segment_overlap]
    rw [if_pos h]

/-- The degenerate two-point base plate holds a 2 (the origin bin is counted
twice: with a window length of 0 nothing is ever remembered). -/
lemma base_plate_00_max : 1 < plateMax (convert_segment_to_plate
    (crop_segment_to_bounds [⟨0, 0, none, none⟩, ⟨0, 0, none, none⟩] 0 0 0 0)
    100 0 0 0 0 true 0) := by
  rw [crop00 _ (by intro pt hpt; fin_cases hpt <;> exact ⟨rfl, rfl⟩),
    convert00_eval true 0 _ (by intro pt hpt; fin_cases hpt <;>
      exact ⟨rfl, rfl⟩)]
  decide

/-- Witness for claim C2: a base segment visiting the candidate's (degenerate)
bounding box twice, with `max_queue_normalize = 0`, is rejected with the
`NotImplementedError`. -/
theorem C2_witness :
    1 < plateMax (convert_segment_to_plate
      (crop_segment_to_bounds [⟨0, 0, none, none⟩, ⟨0, 0, none, none⟩]
        0 0 0 0) 100 0 0 0 0 true 0) ∧
    get_segment_overlap [⟨0, 0, none, none⟩, ⟨0, 0, none, none⟩]
      [⟨0, 0, none, none⟩] 100 0 = .error .notImplementedMultipleMatches := by
  refine ⟨base_plate_00_max, ?_⟩
  exact C2_multiple_occurrence_error [⟨0, 0, none, none⟩, ⟨0, 0, none, none⟩]
    [⟨0, 0, none, none⟩] 100 0 base_plate_00_max

/-- Counterexample for claim C4: with de-duplication window length 0 (a legal
`deque(maxlen=0)`, which never remembers anything) a segment sampling the
same cell twice yields a normalized plate with a cell value of 2 — refuting
"for every segment and every de-duplication window length, every cell value
is in {0,1}". -/
theorem C4_counterexample :
    ¬ (∀ i j, (convert_segment_to_plate
        [⟨0, 0, none, none⟩, ⟨0, 0, none, none⟩] 100 0 0 0 0 true 0).val i j
          ≤ 1) := by
  intro h
  have h2 := h 1 0
  rw [convert00_eval true 0 _ (by intro pt hpt; fin_cases hpt <;>
      exact ⟨rfl, rfl⟩)] at h2
  revert h2
  decide

/-!  ### Orientation inference (C5) -/

/-- Claim C5 (orientation inference).  In every overlap result the engine
returns, the inverse flag is false exactly when the index of the base point
nearest (brute-force haversine `argmin` over the uncropped base segment) to
the candidate's last point is strictly greater than the index nearest to the
candidate's first point; the result spans `[first_index, last_index]` in that
case and `[last_index, first_index]` otherwise, so `start_idx ≤ end_idx`
always. -/
theorem C5_orientation_inference (base_segment match_segment :
    List GPXTrackPoint) (grid_width : ℝ) (max_queue_normalize : ℕ) :
    match get_segment_overlap base_segment match_segment grid_width
        max_queue_normalize, match_segment with
    | .ok r, p0 :: rest =>
      (match get_point_distance_in_segment base_segment p0.latitude
          p0.longitude,
        get_point_distance_in_segment base_segment
          (lastPoint p0 rest).latitude (lastPoint p0 rest).longitude with
       | some (_, _, first_idx), some (_, _, last_idx) =>
          r.inverse = !decide (first_idx < last_idx) ∧
          r.start_idx = (if first_idx < last_idx then first_idx
            else last_idx) ∧
          r.end_idx = (if first_idx < last_idx then last_idx
            else first_idx) ∧
          r.start_idx ≤ r.end_idx
       | _, _ => False)
    | .ok _, [] => False
    | .error _, _ => True := by
  cases match_segment with
  | nil => simp only [get_segment_overlap]
  | cons p0 rest =>
    simp only [get_segment_overlap]
    split_ifs with hmax
    · exact trivial
    · rcases hfp : get_point_distance_in_segment base_segment p0.latitude
        p0.longitude with _ | ⟨fpb, fdist, fidx⟩
      · exact trivial
      · rcases hlp : get_point_distance_in_segment base_segment
            (lastPoint p0 rest).latitude (lastPoint p0 rest).longitude
          with _ | ⟨lpb, ldist, lidx⟩
        · exact trivial
        · dsimp only
          split_ifs with hlt
          all_goals dsimp only
          all_goals rw [hfp, hlp]
          all_goals dsimp only
          · exact ⟨by simp [hlt], by rw [if_pos hlt], by rw [if_pos hlt],
              le_of_lt hlt⟩
          · exact ⟨by simp [hlt], by rw [if_neg hlt], by rw [if_neg hlt],
              by omega⟩

/-!  ### Frame condition (C10) -/

open Classical in
/-- Unrolling the state-passing crop loop: the input list is returned
untouched, and the fresh list accumulates exactly the in-bounds points. -/
lemma crop_segment_to_bounds_loop_spec (a b c d : ℝ) :
    ∀ (pending segment_points acc : List GPXTrackPoint),
    crop_segment_to_bounds_loop a b c d pending segment_points acc =
      (segment_points, acc ++ crop_segment_to_bounds pending a b c d) := by
  intro pending
  induction pending with
  | nil =>
    intro segment_points acc
    simp [crop_segment_to_bounds_loop, crop_segment_to_bounds]
  | cons p rest ih =>
    intro segment_points acc
    rw [crop_segment_to_bounds_loop]
    unfold crop_segment_to_bounds
    rw [List.filter_cons]
    by_cases hp : inBounds a b c d p
    · rw [if_pos hp, ih, decide_eq_true hp, if_pos rfl]
      unfold crop_segment_to_bounds
      simp
    · rw [if_neg hp, ih, decide_eq_false hp]
      unfold crop_segment_to_bounds
      simp

/-- Claim C10 (no mutation of the inputs).  In the state-passing model the
point lists of both input segments are returned unchanged by the overlap
engine; the crop step builds a *new* list — the filter of the input — and the
threaded computation returns the same result as the pure function. -/
theorem C10_inputs_not_mutated (base_segment match_segment :
    List GPXTrackPoint) (grid_width : ℝ) (max_queue_normalize : ℕ) :
    (get_segment_overlap_mut base_segment match_segment grid_width
        max_queue_normalize).2 = (base_segment, match_segment) ∧
    (∀ (a b c d : ℝ) (pts : List GPXTrackPoint),
      crop_segment_to_bounds_loop a b c d pts pts [] =
        (pts, crop_segment_to_bounds pts a b c d)) ∧
    (get_segment_overlap_mut base_segment match_segment grid_width
        max_queue_normalize).1 =
      get_segment_overlap base_segment match_segment grid_width
        max_queue_normalize := by
  have hloop : ∀ (a b c d : ℝ) (pts : List GPXTrackPoint),
      crop_segment_to_bounds_loop a b c d pts pts [] =
        (pts, crop_segment_to_bounds pts a b c d) := by
    intro a b c d pts
    rw [crop_segment_to_bounds_loop_spec]
    simp
  refine ⟨?_, hloop, ?_⟩
  · cases match_segment with
    | nil => rfl
    | cons p0 rest =>
      simp only [get_segment_overlap_mut, hloop]
  · cases match_segment with
    | nil => rfl
    | cons p0 rest =>
      simp only [get_segment_overlap_mut, hloop]

/-!  ### Threshold acceptance (C1, spec-modelled) -/

/-- Claim C1 (below-threshold overlap is a normal no-match).  Whenever the
engine computes an overlap result whose ratio is strictly below the
caller-supplied threshold, the threshold gate returns the empty result list
— no exception, no `SegmentOverlap`. -/
theorem C1_below_threshold_rejected (base_segment match_segment :
    List GPXTrackPoint) (grid_width : ℝ) (max_queue_normalize : ℕ)
    (overlap_threshold : ℚ) (r : SegmentOverlap)
    (hok : get_segment_overlap base_segment match_segment grid_width
      max_queue_normalize = .ok r)
    (hlt : r.overlap < overlap_threshold) :
    get_segment_overlap_threshold base_segment match_segment grid_width
      max_queue_normalize overlap_threshold = .ok [] := by
  unfold get_segment_overlap_threshold
  rw [hok]
  dsimp only
  rw [if_pos hlt]

open Classical in
/-- A point north of the degenerate box is cropped away. -/
lemma crop_single_out :
    crop_segment_to_bounds [(⟨1, 0, none, none⟩ : GPXTrackPoint)] 0 0 0 0 =
      [] := by
  unfold crop_segment_to_bounds
  have hdec : decide (inBounds 0 0 0 0
      (⟨1, 0, none, none⟩ : GPXTrackPoint)) = false := by
    apply decide_eq_false
    intro h
    have h2 := h.1.2
    norm_num at h2
  rw [List.filter_cons, hdec]
  simp

/-- The brute-force nearest-point scan over a one-point base segment. -/
lemma nearest_single :
    get_point_distance_in_segment [(⟨1, 0, none, none⟩ : GPXTrackPoint)]
      (0:ℝ) (0:ℝ) = some (⟨1, 0, none, none⟩,
        get_distances_entry ((1:ℝ), (0:ℝ)) ((0:ℝ), (0:ℝ)), 0) := by
  simp only [get_point_distance_in_segment, List.map, idxOfMin, listMin,
    List.foldl]
  rw [if_pos (Or.inl trivial)]
  rfl

/-- Full evaluation of the pipeline on a base far from a one-point match:
the result is an accepted `SegmentOverlap` with overlap ratio 0. -/
lemma pipeline_eval_ok :
    ∃ r : SegmentOverlap,
      get_segment_overlap [(⟨1, 0, none, none⟩ : GPXTrackPoint)]
        [(⟨0, 0, none, none⟩ : GPXTrackPoint)] 100 5 = .ok r ∧
      r.overlap = 0 := by
  have hb : boundsOfNonempty (⟨0, 0, none, none⟩ : GPXTrackPoint) [] =
      (⟨0, 0, 0, 0⟩ : GPXBounds) := rfl
  have hPB := convert00_eval true 5 [] (by intro pt hpt; cases hpt)
  have hPM := convert00_eval true 5 [⟨0, 0, none, none⟩]
    (by intro pt hpt; fin_cases hpt; exact ⟨rfl, rfl⟩)
  simp only [get_segment_overlap]
  rw [hb]
  dsimp only
  rw [crop_single_out, hPB, hPM]
  rw [if_neg (show ¬ (1 < plateMax (plateFlip (fillPlate
      (([] : List GPXTrackPoint).map fun _ => ((0:ℤ), (0:ℤ))) true 5
      ⟨2, 2, fun _ _ => 0⟩ []))) by decide)]
  simp only [lastPoint, List.getLast_singleton]
  rw [nearest_single]
  dsimp only
  rw [if_neg (lt_irrefl 0)]
  refine ⟨_, rfl, ?_⟩
  show overlap_ratio
      (plateFlip (fillPlate (([] : List GPXTrackPoint).map
        fun _ => ((0:ℤ), (0:ℤ))) true 5 ⟨2, 2, fun _ _ => 0⟩ []))
      (plateFlip (fillPlate (([(⟨0, 0, none, none⟩ : GPXTrackPoint)]).map
        fun _ => ((0:ℤ), (0:ℤ))) true 5 ⟨2, 2, fun _ _ => 0⟩ [])) = 0
  have s1 : plateSum (plateBucket (plateAdd
      (plateFlip (fillPlate (([] : List GPXTrackPoint).map
        fun _ => ((0:ℤ), (0:ℤ))) true 5 ⟨2, 2, fun _ _ => 0⟩ []))
      (plateFlip (fillPlate (([(⟨0, 0, none, none⟩ : GPXTrackPoint)]).map
        fun _ => ((0:ℤ), (0:ℤ))) true 5 ⟨2, 2, fun _ _ => 0⟩ [])))) = 0 := by
    decide
  have s2 : plateSum (plateFlip (fillPlate
      (([(⟨0, 0, none, none⟩ : GPXTrackPoint)]).map
        fun _ => ((0:ℤ), (0:ℤ))) true 5 ⟨2, 2, fun _ _ => 0⟩ [])) = 1 := by
    decide
  simp only [overlap_ratio, s1, s2]
  norm_num

/-- Witness for claim C1: the far-apart base/match pair evaluates to overlap 0,
strictly below the default threshold 0.75, and the threshold gate returns
the empty result list. -/
theorem C1_witness :
    get_segment_overlap_threshold [(⟨1, 0, none, none⟩ : GPXTrackPoint)]
      [(⟨0, 0, none, none⟩ : GPXTrackPoint)] 100 5 (3 / 4) = .ok [] := by
  obtain ⟨r, hok, hov⟩ := pipeline_eval_ok
  exact C1_below_threshold_rejected _ _ _ _ _ r hok (by rw [hov]; norm_num)

end TrackAnalyzer
